import Mathlib

/-!
Shallow embedding of the OC-provisioning bot (`src/index.js`).

Strings are modelled as `List Char`.  The `String.prototype.normalize('NFKD')`
step of `slugify` is modelled as the identity map: it only changes which
characters reach the later stages, every theorem below quantifies over all
character lists, so each universally quantified property also holds for the
image of any normalization, and all concrete counterexamples are ASCII, where
NFKD is the identity.  Regular expressions of the source are translated to
explicit matching functions with the semantics of the host regex engine
(greedy quantifiers with backtracking, `.` not matching a newline, `$`
anchoring only at the true end of input, case-insensitive flag compared via
ASCII case mapping).
-/

namespace OCBot

abbrev Str := List Char

/-- The whitespace class of the host platform: the character set matched by
the regex class used in the source's patterns and stripped by trimming. -/
def isJsSpace (c : Char) : Bool :=
  decide (c.toNat = 32 ∨ c.toNat = 9 ∨ c.toNat = 10 ∨ c.toNat = 11 ∨
    c.toNat = 12 ∨ c.toNat = 13 ∨ c.toNat = 0xa0 ∨ c.toNat = 0x1680 ∨
    (0x2000 ≤ c.toNat ∧ c.toNat ≤ 0x200a) ∨ c.toNat = 0x2028 ∨
    c.toNat = 0x2029 ∨ c.toNat = 0x202f ∨ c.toNat = 0x205f ∨
    c.toNat = 0x3000 ∨ c.toNat = 0xfeff)

/-- Lowercase ASCII letter or digit: the complement of the class the slugifier
replaces (`[^a-z0-9]`, applied after lowercasing). -/
def isAlnum (c : Char) : Bool :=
  decide ((97 ≤ c.toNat ∧ c.toNat ≤ 122) ∨ (48 ≤ c.toNat ∧ c.toNat ≤ 57))

/-- A character allowed in a slug: `[a-z0-9-]`. -/
def isSlugChar (c : Char) : Bool := isAlnum c || c == '-'

/-- Drop leading whitespace. -/
def ltrim (l : Str) : Str := l.dropWhile isJsSpace

/-- Drop trailing whitespace. -/
def rtrim : Str → Str
  | [] => []
  | c :: cs =>
    match rtrim cs with
    | [] => if isJsSpace c then [] else [c]
    | r => c :: r

/-- `String.prototype.trim()`: drop leading and trailing whitespace. -/
def trim (l : Str) : Str := rtrim (ltrim l)

/-- `fullName.split(/\s+/)`: splitting on maximal runs of whitespace,
keeping the empty tokens the host split produces at a leading or trailing
separator.  The flag records that the previous character belonged to the
separator run being skipped. -/
def splitWsAux (acc : Str) (inSep : Bool) : Str → List Str
  | [] => [acc.reverse]
  | c :: cs =>
    if isJsSpace c then
      if inSep then splitWsAux acc inSep cs
      else acc.reverse :: splitWsAux [] true cs
    else splitWsAux (c :: acc) false cs

def splitWs (l : Str) : List Str := splitWsAux [] false l

/-- Combining diacritical mark, the class removed by the slugifier's
accent-stripping step. -/
def isCombining (c : Char) : Bool := decide (0x300 ≤ c.toNat ∧ c.toNat ≤ 0x36f)

def stripAccents (l : Str) : Str := l.filter (fun c => !isCombining c)

/-- Replace every run of non-alphanumeric characters by a single hyphen; the
flag records whether the previous character was part of such a run. -/
def collapseAux : Bool → Str → Str
  | _, [] => []
  | inRun, c :: cs =>
    if isAlnum c then c :: collapseAux false cs
    else if inRun then collapseAux true cs
    else '-' :: collapseAux true cs

def collapse (l : Str) : Str := collapseAux false l

/-- Remove one leading hyphen (the `^-` alternative of the trimming regex). -/
def stripLead : Str → Str
  | [] => []
  | c :: cs => if c = '-' then cs else c :: cs

/-- Remove one trailing hyphen (the `-$` alternative of the trimming regex). -/
def stripTrail : Str → Str
  | [] => []
  | [c] => if c = '-' then [] else [c]
  | c :: cs => c :: stripTrail cs

/-- The slug before the final 90-character truncation. -/
def slugCore (text : Str) : Str :=
  stripTrail (stripLead (collapse ((stripAccents text).map Char.toLower)))

/-- `slugify` from the source: NFKD-normalize (modelled as the identity),
strip combining accents, lowercase, collapse runs of non-alphanumerics to a
hyphen, strip one leading and one trailing hyphen, then truncate to the first
90 characters. -/
def slugify (text : Str) : Str := (slugCore text).take 90

/-- Case-insensitively consume `kw` as an initial segment of the input,
returning the remainder on success. -/
def dropCI : Str → Str → Option Str
  | [], l => some l
  | _ :: _, [] => none
  | k :: ks, c :: cs => if Char.toLower c = Char.toLower k then dropCI ks cs else none

/-- The `\s*(.+)$` tail of the anchored pattern, applied to the input after
the colon.  The greedy whitespace run is consumed first; the capture must be
nonempty and must reach the end of the input without crossing a newline.
When everything after the colon is whitespace, the capture must still reach
the end, so backtracking can only hand the dot the final character, and only
when that character is not a newline. -/
def captureToEnd (r2 : Str) : Option Str :=
  match r2.dropWhile isJsSpace with
  | [] =>
    match r2.getLast? with
    | some c => if c = '\n' then none else some [c]
    | none => none
  | r3 => if r3.all (fun c => decide (c ≠ '\n')) then some r3 else none

/-- The `\s*(.+)` tail of the unanchored pattern.  With no end anchor the
capture is the maximal newline-free run after the greedy whitespace run;
when everything left is whitespace, backtracking hands the dot the last
whitespace character that is not followed only by newlines. -/
def captureRest (r2 : Str) : Option Str :=
  match r2.dropWhile isJsSpace with
  | [] =>
    match (r2.reverse.dropWhile (fun c => c = '\n')).head? with
    | some c => some [c]
    | none => none
  | r3 => some (r3.takeWhile (fun c => decide (c ≠ '\n')))

/-- The `\s*:` middle of both patterns: greedy whitespace, then a literal
colon, then the capture tail. -/
def expectColon (cap : Str → Option Str) (r1 : Str) : Option Str :=
  match r1.dropWhile isJsSpace with
  | c :: r2 => if c = ':' then cap r2 else none
  | [] => none

/-- Match the anchored pattern `^\s*<kw>\s*:\s*(.+)$` (case-insensitive)
against an input, returning the capture group. -/
def anchoredKw (kw : Str) (l : Str) : Option Str :=
  (dropCI kw (l.dropWhile isJsSpace)).bind (expectColon captureToEnd)

/-- `parseOCName` from the source: trim the content, try the anchored
`oc:`-pattern then the anchored `name:`-pattern, fall back to the whole
trimmed content, and trim the result. -/
def parseOCName (content : Str) : Str :=
  match anchoredKw ['o', 'c'] (trim content) with
  | some r => trim r
  | none =>
    match anchoredKw ['n', 'a', 'm', 'e'] (trim content) with
    | some r => trim r
    | none => trim (trim content)

/-- Match the unanchored pattern `OC\s*:\s*(.+)` (case-insensitive) at the
head of the input. -/
def matchOCAt (l : Str) : Option Str :=
  (dropCI ['o', 'c'] l).bind (expectColon captureRest)

/-- Scan the input left to right for the first position where the unanchored
embed-title pattern matches, as the host engine's `match` does. -/
def scanOC : Str → Option Str
  | [] => none
  | c :: cs =>
    match matchOCAt (c :: cs) with
    | some r => some r
    | none => scanOC cs

/-- Outcome of the roster fetch: the request rejecting, a response whose
`ok` flag is false (both end in the same catch), or a response body. -/
inductive FetchOut where
  | netErr : FetchOut
  | httpErr : FetchOut
  | ok (body : Str) : FetchOut
deriving DecidableEq

/-- `text.split(/\r?\n/)`: a lone carriage return is not a separator. -/
def splitLinesAux (acc : Str) : Str → List Str
  | [] => [acc.reverse]
  | '\r' :: '\n' :: cs => acc.reverse :: splitLinesAux [] cs
  | '\n' :: cs => acc.reverse :: splitLinesAux [] cs
  | c :: cs => splitLinesAux (c :: acc) cs

def splitLines (l : Str) : List Str := splitLinesAux [] l

/-- `line.split(',')`. -/
def splitCommaAux (acc : Str) : Str → List Str
  | [] => [acc.reverse]
  | ',' :: cs => acc.reverse :: splitCommaAux [] cs
  | c :: cs => splitCommaAux (c :: acc) cs

def splitComma (l : Str) : List Str := splitCommaAux [] l

/-- The parsing part of `loadExistingOCs`: keep the nonblank lines, skip the
header row, read each remaining row's second comma-separated cell (an absent
cell reads as the empty string), trim it, skip blank names, lowercase the
rest. -/
def parseRoster (text : Str) : List Str :=
  let lines := (splitLines text).filter (fun l => decide (0 < (trim l).length))
  (lines.drop 1).filterMap (fun line =>
    let rawName := trim ((splitComma line).getD 1 [])
    if rawName = [] then none else some (rawName.map Char.toLower))

/-- `loadExistingOCs`: a rejected fetch and a not-ok response both land in
the catch block, which logs a warning and returns an empty set; a body is
parsed as CSV. -/
def loadExistingOCs : FetchOut → List Str
  | FetchOut.netErr => []
  | FetchOut.httpErr => []
  | FetchOut.ok body => parseRoster body

/-- A structured embed: an optional title and an opaque identity standing
for the rest of its raw data. -/
structure Embed where
  title : Option Str
  payload : Nat
deriving DecidableEq

/-- The fields of an inbound message the handler reads. -/
structure Msg where
  authorBot : Bool
  webhookId : Option Nat
  guildId : Option Nat
  channelId : Nat
  content : Str
  embeds : List Embed
  authorId : Nat
deriving DecidableEq

/-- The environment configuration the handler reads; empty optional
variables are `none`. -/
structure Config where
  guildId : Nat
  submissionsChannelId : Nat
  ocCategoryId : Option Nat
  modRoleId : Nat
  gmRoleId : Option Nat
  logChannelId : Option Nat
deriving DecidableEq

inductive Perm where
  | viewChannel
  | sendMessages
  | readMessageHistory
  | attachFiles
  | embedLinks
  | addReactions
  | manageMessages
  | manageChannels
deriving DecidableEq

/-- One permission overwrite entry; an absent `allow` or `deny` key of the
source literal is the empty list. -/
structure Overwrite where
  id : Nat
  allow : List Perm
  deny : List Perm
deriving DecidableEq

inductive CType where
  | guildText
  | other
deriving DecidableEq

structure Channel where
  id : Nat
  name : Str
  ctype : CType
  parent : Option Nat
  overwrites : List Overwrite
deriving DecidableEq

structure Role where
  id : Nat
  name : Str
deriving DecidableEq

/-- The observable platform state the handler reads and writes: the guild's
role and channel caches, the everyone-role id, which members hold which
roles, and the module-level roster set. -/
structure World where
  roles : List Role
  channels : List Channel
  everyoneRoleId : Nat
  memberRoles : List (Nat × Nat)
  roster : List Str
  nextId : Nat
deriving DecidableEq

inductive ReplyKind where
  | duplicate (fullName : Str)
  | formatHelp
deriving DecidableEq

/-- Externally observable side effects of one handler run. -/
inductive Effect where
  | reply (r : ReplyKind)
  | createdRole (id : Nat) (name : Str)
  | createdChannel (id : Nat) (name : Str)
  | sentWelcome (channelId : Nat) (fullName : Str)
  | copiedEmbed (channelId : Nat) (e : Embed)
  | warnedEmbedCopy (channelId : Nat)
  | addedRole (memberId roleId : Nat)
  | sentLog (logChannelId : Nat) (fullName : Str) (roleId chanId authorId : Nat)
deriving DecidableEq

/-- Fault injection: which awaited platform call rejects, and what the
roster fetch returns. -/
structure Faults where
  rosterFetch : FetchOut
  replyFail : Bool
  guildFetchFail : Bool
  roleCreateFail : Bool
  channelCreateFail : Bool
  welcomeFail : Bool
  embedCopyFail : Bool
  roleAddFail : Bool
  logSendFail : Bool
deriving DecidableEq

def noFaults (r : FetchOut) : Faults :=
  ⟨r, false, false, false, false, false, false, false, false⟩

/-- The embed-title candidate: the first capture of the unanchored
`OC:`-pattern against the title, trimmed. -/
def firstEmbedCand (e : Embed) : Option Str :=
  match e.title with
  | none => none
  | some t => (scanOC t).map trim

/-- The handler consults only `embeds[0]`. -/
def embedName (m : Msg) : Option Str :=
  match m.embeds with
  | [] => none
  | e :: _ => firstEmbedCand e

/-- Name extraction of the handler: an embed-title candidate that is absent
or empty (falsy) falls back to plain-text parsing of the content. -/
def extractFullName (m : Msg) : Str :=
  match embedName m with
  | some n => if n = [] then parseOCName m.content else n
  | none => parseOCName m.content

def roleNameOf (fullName : Str) : Str := (splitWs fullName).headD []

def channelNameOf (fullName : Str) : Str := ['o', 'c', '-'] ++ slugify fullName

/-- The permission overwrites built at channel creation, in source order. -/
def buildOverwrites (cfg : Config) (everyoneId roleId : Nat) : List Overwrite :=
  let base : List Overwrite :=
    [{ id := everyoneId, allow := [], deny := [Perm.viewChannel] },
     { id := roleId,
       allow := [Perm.viewChannel, Perm.sendMessages, Perm.readMessageHistory,
                 Perm.attachFiles, Perm.embedLinks, Perm.addReactions],
       deny := [] },
     { id := cfg.modRoleId,
       allow := [Perm.viewChannel, Perm.sendMessages, Perm.readMessageHistory,
                 Perm.manageMessages, Perm.manageChannels],
       deny := [] }]
  match cfg.gmRoleId with
  | some gm =>
    base ++ [{ id := gm,
               allow := [Perm.viewChannel, Perm.sendMessages, Perm.readMessageHistory,
                         Perm.manageMessages, Perm.manageChannels],
               deny := [] }]
  | none => base

def isTextBased (c : Channel) : Bool := c.ctype == CType.guildText

/-- Audit logging: only when a log channel is configured, present in the
cache and text-based. -/
def doLog (cfg : Config) (f : Faults) (w : World) (m : Msg) (fullName : Str)
    (role : Role) (ch : Channel) (eff : List Effect) :
    World × List Effect × Option Unit :=
  match cfg.logChannelId with
  | none => (w, eff, none)
  | some lid =>
    match w.channels.find? (fun c => c.id == lid) with
    | none => (w, eff, none)
    | some lc =>
      if isTextBased lc then
        if f.logSendFail then (w, eff, some ())
        else (w, eff ++ [Effect.sentLog lid fullName role.id ch.id m.authorId], none)
      else (w, eff, none)

/-- Role assignment (skipped when the member already holds the role), then
audit logging. -/
def assignAndLog (cfg : Config) (f : Faults) (w : World) (m : Msg) (fullName : Str)
    (role : Role) (ch : Channel) (eff : List Effect) :
    World × List Effect × Option Unit :=
  if (m.authorId, role.id) ∈ w.memberRoles then doLog cfg f w m fullName role ch eff
  else if f.roleAddFail then (w, eff, some ())
  else
    doLog cfg f { w with memberRoles := w.memberRoles ++ [(m.authorId, role.id)] }
      m fullName role ch (eff ++ [Effect.addedRole m.authorId role.id])

/-- The channel entity built at the creation site: fresh id, requested name,
text type, configured parent category (or none) and the permission
overwrites. -/
def newChannel (cfg : Config) (w : World) (role : Role) (channelName : Str) : Channel :=
  ⟨w.nextId, channelName, CType.guildText, cfg.ocCategoryId,
    buildOverwrites cfg w.everyoneRoleId role.id⟩

/-- The effects of replicating the submission's first embed into the new
channel; its own failure is caught locally and only logs a warning. -/
def embedCopyEffects (f : Faults) (chId : Nat) (m : Msg) : List Effect :=
  match m.embeds with
  | [] => []
  | e :: _ =>
    if f.embedCopyFail then [Effect.warnedEmbedCopy chId]
    else [Effect.copiedEmbed chId e]

/-- Channel resolution: exact-name lookup among text channels; on a miss,
create the channel with the permission overwrites, send the starter message,
and replicate the first embed. -/
def resolveChannel (cfg : Config) (f : Faults) (w : World) (m : Msg) (fullName : Str)
    (role : Role) (channelName : Str) (eff : List Effect) :
    World × List Effect × Option Unit :=
  match w.channels.find? (fun c => c.ctype == CType.guildText && c.name == channelName) with
  | some ch => assignAndLog cfg f w m fullName role ch eff
  | none =>
    if f.channelCreateFail then (w, eff, some ())
    else if f.welcomeFail then
      ({ w with
          channels := w.channels ++ [newChannel cfg w role channelName],
          nextId := w.nextId + 1 },
       eff ++ [Effect.createdChannel w.nextId channelName], some ())
    else
      assignAndLog cfg f
        { w with
          channels := w.channels ++ [newChannel cfg w role channelName],
          nextId := w.nextId + 1 }
        m fullName role (newChannel cfg w role channelName)
        (eff ++ [Effect.createdChannel w.nextId channelName] ++
          [Effect.sentWelcome w.nextId fullName] ++ embedCopyEffects f w.nextId m)

/-- Role resolution: case-insensitive name lookup; create on a miss. -/
def resolveRole (cfg : Config) (f : Faults) (w : World) (m : Msg) (fullName : Str)
    (roleName : Str) (channelName : Str) : World × List Effect × Option Unit :=
  match w.roles.find? (fun r => r.name.map Char.toLower == roleName.map Char.toLower) with
  | some role => resolveChannel cfg f w m fullName role channelName []
  | none =>
    if f.roleCreateFail then (w, [], some ())
    else
      resolveChannel cfg f
        { w with
          roles := w.roles ++ [⟨w.nextId, roleName⟩],
          nextId := w.nextId + 1 }
        m fullName ⟨w.nextId, roleName⟩ channelName
        [Effect.createdRole w.nextId roleName]

/-- The body of the `messageCreate` handler, before the boundary catch.
The third component records whether a platform call threw (the error that
the boundary catch would receive). -/
def runBody (cfg : Config) (f : Faults) (w : World) (m : Msg) :
    World × List Effect × Option Unit :=
  if m.authorBot = true ∧ m.webhookId = none then (w, [], none)
  else if m.guildId ≠ some cfg.guildId then (w, [], none)
  else if m.channelId ≠ cfg.submissionsChannelId then (w, [], none)
  else if extractFullName m = [] then (w, [], none)
  else if (extractFullName m).map Char.toLower ∈ loadExistingOCs f.rosterFetch then
    if f.replyFail then ({ w with roster := loadExistingOCs f.rosterFetch }, [], some ())
    else ({ w with roster := loadExistingOCs f.rosterFetch },
      [Effect.reply (ReplyKind.duplicate (extractFullName m))], none)
  else if (splitWs (extractFullName m)).length < 2 then
    if f.replyFail then ({ w with roster := loadExistingOCs f.rosterFetch }, [], some ())
    else ({ w with roster := loadExistingOCs f.rosterFetch },
      [Effect.reply ReplyKind.formatHelp], none)
  else if f.guildFetchFail then
    ({ w with roster := loadExistingOCs f.rosterFetch }, [], some ())
  else
    resolveRole cfg f { w with roster := loadExistingOCs f.rosterFetch } m
      (extractFullName m) (roleNameOf (extractFullName m))
      (channelNameOf (extractFullName m))

/-- The whole `messageCreate` handler: the body runs under a top-level
try/catch, so a thrown error is logged and the handler returns normally with
the side effects already performed. -/
def handleMessage (cfg : Config) (f : Faults) (w : World) (m : Msg) :
    World × List Effect :=
  ((runBody cfg f w m).1, (runBody cfg f w m).2.1)

/-! ### Invariants of the slugifier -/

/-- Adjacent characters are not both hyphens. -/
def NoHH (a b : Char) : Prop := ¬(a = '-' ∧ b = '-')

theorem alnum_ne_hyph {a : Char} (ha : isAlnum a = true) : a ≠ '-' := by
  intro h
  subst h
  exact absurd ha (by decide)

theorem isSlugChar_of_mem_collapseAux :
    ∀ (l : Str) (b : Bool) (c : Char), c ∈ collapseAux b l → isSlugChar c = true := by
  intro l
  induction l with
  | nil => intro b c h; simp [collapseAux] at h
  | cons a l ih =>
    intro b c h
    simp only [collapseAux] at h
    by_cases ha : isAlnum a = true
    · rw [if_pos ha] at h
      rcases List.mem_cons.mp h with rfl | h
      · simp [isSlugChar, ha]
      · exact ih false c h
    · rw [if_neg ha] at h
      cases b with
      | true => exact ih true c (by simpa using h)
      | false =>
        rcases List.mem_cons.mp (by simpa using h) with rfl | h
        · decide
        · exact ih true c h

theorem head?_collapseAux_true (l : Str) : (collapseAux true l).head? ≠ some '-' := by
  induction l with
  | nil => simp [collapseAux]
  | cons a l ih =>
    simp only [collapseAux]
    by_cases ha : isAlnum a = true
    · rw [if_pos ha]
      simp only [List.head?_cons, ne_eq, Option.some.injEq]
      exact alnum_ne_hyph ha
    · rw [if_neg ha]
      simpa using ih

theorem chain'_collapseAux (l : Str) :
    List.Chain' NoHH (collapseAux true l) ∧ List.Chain' NoHH (collapseAux false l) := by
  induction l with
  | nil => simp [collapseAux]
  | cons a l ih =>
    obtain ⟨iht, ihf⟩ := ih
    by_cases ha : isAlnum a = true
    · constructor <;>
      · simp only [collapseAux, if_pos ha]
        rw [List.chain'_cons']
        exact ⟨fun y _ hy => alnum_ne_hyph ha hy.1, ihf⟩
    · constructor
      · simp only [collapseAux, if_neg ha]
        simpa using iht
      · simp only [collapseAux, if_neg ha]
        simp only [Bool.false_eq_true, if_false]
        rw [List.chain'_cons']
        refine ⟨?_, iht⟩
        intro y hy h2
        exact head?_collapseAux_true l (by rw [← h2.2]; exact hy)

theorem mem_stripLead {c : Char} {l : Str} (h : c ∈ stripLead l) : c ∈ l := by
  cases l with
  | nil => simpa [stripLead] using h
  | cons a cs =>
    by_cases ha : a = '-'
    · simp only [stripLead, if_pos ha] at h
      exact List.mem_cons_of_mem _ h
    · simpa [stripLead, ha] using h

theorem chain'_stripLead {l : Str} (h : List.Chain' NoHH l) :
    List.Chain' NoHH (stripLead l) := by
  cases l with
  | nil => simpa [stripLead] using h
  | cons a cs =>
    by_cases ha : a = '-'
    · simpa [stripLead, ha] using h.tail
    · simpa [stripLead, ha] using h

theorem head?_of_chain_hyph {l : Str} (h : List.Chain' NoHH ('-' :: l)) :
    l.head? ≠ some '-' := by
  cases l with
  | nil => simp
  | cons b l' =>
    have hr := (List.chain'_cons.mp h).1
    simp only [List.head?_cons, ne_eq, Option.some.injEq]
    intro hb
    exact hr ⟨rfl, hb⟩

theorem head?_stripLead {l : Str} (h : List.Chain' NoHH l) :
    (stripLead l).head? ≠ some '-' := by
  cases l with
  | nil => simp [stripLead]
  | cons a cs =>
    by_cases ha : a = '-'
    · subst ha
      simp only [stripLead, if_pos rfl]
      exact head?_of_chain_hyph h
    · simp [stripLead, ha]

theorem stripLead_eq_self {l : Str} (h : l.head? ≠ some '-') : stripLead l = l := by
  cases l with
  | nil => rfl
  | cons a cs =>
    have ha : a ≠ '-' := by simpa using h
    simp [stripLead, ha]

theorem mem_stripTrail {c : Char} : ∀ {l : Str}, c ∈ stripTrail l → c ∈ l
  | [], h => by simpa [stripTrail] using h
  | [a], h => by
    by_cases ha : a = '-'
    · simp [stripTrail, ha] at h
    · simpa [stripTrail, ha] using h
  | a :: b :: cs, h => by
    simp only [stripTrail] at h
    rcases List.mem_cons.mp h with rfl | h
    · simp
    · exact List.mem_cons_of_mem _ (mem_stripTrail h)

theorem head?_stripTrail : ∀ (l : Str), (stripTrail l).head? = l.head? ∨ stripTrail l = []
  | [] => Or.inl rfl
  | [a] => by
    by_cases ha : a = '-'
    · right
      simp [stripTrail, ha]
    · left
      simp [stripTrail, ha]
  | a :: b :: cs => by
    left
    simp [stripTrail]

theorem chain'_stripTrail : ∀ {l : Str}, List.Chain' NoHH l → List.Chain' NoHH (stripTrail l)
  | [], _ => by simp [stripTrail]
  | [a], _ => by
    by_cases ha : a = '-' <;> simp [stripTrail, ha]
  | a :: b :: cs, h => by
    simp only [stripTrail]
    rw [List.chain'_cons']
    refine ⟨?_, chain'_stripTrail h.tail⟩
    intro y hy
    rcases head?_stripTrail (b :: cs) with heq | hnil
    · rw [heq] at hy
      simp only [List.head?_cons, Option.mem_def, Option.some.injEq] at hy
      subst hy
      exact (List.chain'_cons.mp h).1
    · rw [hnil] at hy
      simp at hy

theorem stripTrail_eq_nil : ∀ {l : Str}, stripTrail l = [] → l = [] ∨ l = ['-']
  | [], _ => Or.inl rfl
  | [a], h => by
    by_cases ha : a = '-'
    · right
      rw [ha]
    · simp [stripTrail, ha] at h
  | a :: b :: cs, h => by simp [stripTrail] at h

theorem getLast?_stripTrail : ∀ {l : Str}, List.Chain' NoHH l →
    (stripTrail l).getLast? ≠ some '-'
  | [], _ => by simp [stripTrail]
  | [a], _ => by
    by_cases ha : a = '-' <;> simp [stripTrail, ha]
  | a :: b :: cs, h => by
    simp only [stripTrail]
    cases hst : stripTrail (b :: cs) with
    | nil =>
      rcases stripTrail_eq_nil hst with h1 | h1
      · simp at h1
      · have hb : b = '-' := by
          have := congrArg (fun l => List.head? l) h1
          simpa using this
        have hcs : cs = [] := by
          have := congrArg (fun l => List.tail l) h1
          simpa using this
        subst hb
        have hr := (List.chain'_cons.mp h).1
        simp only [List.getLast?_singleton, ne_eq, Option.some.injEq]
        intro hac
        exact hr ⟨hac, rfl⟩
    | cons x xs =>
      rw [List.getLast?_cons_cons]
      rw [← hst]
      exact getLast?_stripTrail h.tail

theorem stripTrail_eq_self : ∀ {l : Str}, l.getLast? ≠ some '-' → stripTrail l = l
  | [], _ => rfl
  | [a], h => by
    have ha : a ≠ '-' := by simpa using h
    simp [stripTrail, ha]
  | a :: b :: cs, h => by
    simp only [stripTrail]
    rw [stripTrail_eq_self (by rwa [List.getLast?_cons_cons] at h)]

theorem toLower_fix {c : Char} (h : isSlugChar c = true) : c.toLower = c := by
  have hn : (97 ≤ c.toNat ∧ c.toNat ≤ 122) ∨ (48 ≤ c.toNat ∧ c.toNat ≤ 57) ∨
      c.toNat = 45 := by
    simp only [isSlugChar, isAlnum, Bool.or_eq_true, decide_eq_true_eq, beq_iff_eq] at h
    rcases h with h | h
    · rcases h with h | h
      · exact Or.inl h
      · exact Or.inr (Or.inl h)
    · subst h
      right
      right
      rfl
  simp only [Char.toLower]
  rw [if_neg (by omega)]

theorem map_toLower_fix : ∀ {l : Str}, (∀ c ∈ l, isSlugChar c = true) →
    l.map Char.toLower = l
  | [], _ => rfl
  | a :: l, h => by
    simp only [List.map_cons]
    rw [toLower_fix (h a (by simp)),
      map_toLower_fix (fun c hc => h c (List.mem_cons_of_mem _ hc))]

theorem stripAccents_fix {l : Str} (h : ∀ c ∈ l, isSlugChar c = true) :
    stripAccents l = l := by
  apply List.filter_eq_self.mpr
  intro a ha
  have hb : a.toNat < 768 := by
    have := h a ha
    simp only [isSlugChar, isAlnum, Bool.or_eq_true, decide_eq_true_eq,
      beq_iff_eq] at this
    rcases this with h1 | h1
    · rcases h1 with ⟨h1, h2⟩ | ⟨h1, h2⟩ <;> omega
    · subst h1
      decide
  simp only [Bool.not_eq_true', isCombining, decide_eq_false_iff_not, not_and]
  omega

theorem collapseAux_fix :
    ∀ (l : Str), (∀ c ∈ l, isSlugChar c = true) → List.Chain' NoHH l →
      collapseAux false l = l ∧ (l.head? ≠ some '-' → collapseAux true l = l)
  | [], _, _ => ⟨rfl, fun _ => rfl⟩
  | a :: l, hmem, hch => by
    have ihl := collapseAux_fix l (fun c hc => hmem c (List.mem_cons_of_mem _ hc))
      hch.tail
    by_cases ha : isAlnum a = true
    · constructor
      · simp only [collapseAux, if_pos ha]
        rw [ihl.1]
      · intro _
        simp only [collapseAux, if_pos ha]
        rw [ihl.1]
    · have ha' : a = '-' := by
        have := hmem a (by simp)
        simp only [isSlugChar, Bool.or_eq_true, beq_iff_eq] at this
        rcases this with h | h
        · exact absurd h ha
        · exact h
      subst ha'
      constructor
      · simp only [collapseAux, if_neg ha, Bool.false_eq_true, if_false]
        rw [ihl.2 (head?_of_chain_hyph hch)]
      · intro hh
        simp at hh

theorem slugCore_mem {x : Str} {c : Char} (h : c ∈ slugCore x) :
    isSlugChar c = true := by
  unfold slugCore at h
  exact isSlugChar_of_mem_collapseAux _ false c (mem_stripLead (mem_stripTrail h))

theorem slugCore_chain (x : Str) : List.Chain' NoHH (slugCore x) :=
  chain'_stripTrail (chain'_stripLead (chain'_collapseAux _).2)

theorem slugCore_head (x : Str) : (slugCore x).head? ≠ some '-' := by
  unfold slugCore
  rcases head?_stripTrail (stripLead (collapse ((stripAccents x).map Char.toLower)))
    with heq | hnil
  · rw [heq]
    exact head?_stripLead (chain'_collapseAux _).2
  · rw [hnil]
    simp

theorem slugCore_last (x : Str) : (slugCore x).getLast? ≠ some '-' :=
  getLast?_stripTrail (chain'_stripLead (chain'_collapseAux _).2)

theorem slugCore_idem (x : Str) : slugCore (slugCore x) = slugCore x := by
  have hmem : ∀ c ∈ slugCore x, isSlugChar c = true := fun c hc => slugCore_mem hc
  have hch : List.Chain' NoHH (slugCore x) := slugCore_chain x
  show stripTrail (stripLead (collapse
    ((stripAccents (slugCore x)).map Char.toLower))) = slugCore x
  rw [stripAccents_fix hmem, map_toLower_fix hmem]
  show stripTrail (stripLead (collapseAux false (slugCore x))) = slugCore x
  rw [(collapseAux_fix _ hmem hch).1, stripLead_eq_self (slugCore_head x),
    stripTrail_eq_self (slugCore_last x)]

theorem head?_take_ninety {l : Str} : (l.take 90).head? = l.head? := by
  cases l with
  | nil => rfl
  | cons a l => simp [List.take_succ_cons]

/-! ### Trimming toolkit -/

theorem dropWhile_idem (p : Char → Bool) (l : Str) :
    (l.dropWhile p).dropWhile p = l.dropWhile p := by
  induction l with
  | nil => rfl
  | cons a l ih =>
    by_cases h : p a = true
    · simp [List.dropWhile_cons, h, ih]
    · simp [List.dropWhile_cons, h]

theorem ltrim_idem (l : Str) : ltrim (ltrim l) = ltrim l :=
  dropWhile_idem isJsSpace l

theorem rtrim_cons (a : Char) (l : Str) :
    rtrim (a :: l) = match rtrim l with
      | [] => if isJsSpace a then [] else [a]
      | r => a :: r := rfl

theorem head?_ltrim {l : Str} {x : Char} (h : (ltrim l).head? = some x) :
    isJsSpace x = false := by
  induction l with
  | nil => simp [ltrim] at h
  | cons a l ih =>
    simp only [ltrim, List.dropWhile_cons] at h
    by_cases ha : isJsSpace a = true
    · rw [if_pos ha] at h
      exact ih h
    · rw [if_neg ha] at h
      simp only [List.head?_cons, Option.some.injEq] at h
      subst h
      simpa using ha

theorem ltrim_cons_not {a : Char} {l : Str} (ha : isJsSpace a = false) :
    ltrim (a :: l) = a :: l := by
  simp [ltrim, List.dropWhile_cons, ha]

theorem ltrim_eq_nil_iff {l : Str} : ltrim l = [] ↔ ∀ c ∈ l, isJsSpace c = true :=
  List.dropWhile_eq_nil_iff

theorem mem_rtrim {c : Char} : ∀ {l : Str}, c ∈ rtrim l → c ∈ l
  | [], h => by simpa [rtrim] using h
  | a :: l, h => by
    simp only [rtrim] at h
    rcases hr : rtrim l with _ | ⟨x, xs⟩
    · rw [hr] at h
      by_cases ha : isJsSpace a = true
      · rw [if_pos ha] at h
        simp at h
      · rw [if_neg ha] at h
        simp only [List.mem_singleton] at h
        simp [h]
    · rw [hr] at h
      rcases List.mem_cons.mp h with rfl | h
      · simp
      · exact List.mem_cons_of_mem _ (mem_rtrim (l := l) (by rw [hr]; exact h))

theorem rtrim_eq_nil_iff : ∀ {l : Str}, rtrim l = [] ↔ ∀ c ∈ l, isJsSpace c = true
  | [] => by simp [rtrim]
  | a :: l => by
    simp only [rtrim]
    rcases hr : rtrim l with _ | ⟨x, xs⟩
    · have hl : ∀ c ∈ l, isJsSpace c = true := rtrim_eq_nil_iff.mp hr
      by_cases ha : isJsSpace a = true
      · simp only [ha, if_true, List.mem_cons, true_iff]
        intro c hc
        rcases hc with rfl | hc
        · exact ha
        · exact hl c hc
      · simp only [ha, if_false]
        constructor
        · intro h
          simp at h
        · intro h
          exact absurd (h a (by simp)) (by simp [ha])
    · constructor
      · intro h
        simp at h
      · intro h
        have := rtrim_eq_nil_iff.mpr (fun c hc => h c (List.mem_cons_of_mem _ hc))
        rw [this] at hr
        simp at hr

theorem rtrim_idem : ∀ (l : Str), rtrim (rtrim l) = rtrim l
  | [] => rfl
  | a :: l => by
    rcases hr : rtrim l with _ | ⟨x, xs⟩
    · have h1 : rtrim (a :: l) = if isJsSpace a = true then [] else [a] := by
        rw [rtrim_cons, hr]
      rw [h1]
      by_cases ha : isJsSpace a = true
      · rw [if_pos ha]
        rfl
      · rw [if_neg ha]
        have h2 : rtrim [a] = if isJsSpace a = true then [] else [a] := rfl
        rw [h2, if_neg ha]
    · have h1 : rtrim (a :: l) = a :: x :: xs := by
        rw [rtrim_cons, hr]
      have hfix : rtrim (x :: xs) = x :: xs := by
        have := rtrim_idem l
        rwa [hr] at this
      rw [h1, rtrim_cons, hfix]

theorem head?_rtrim : ∀ (l : Str), (rtrim l).head? = l.head? ∨ rtrim l = []
  | [] => Or.inl rfl
  | a :: l => by
    simp only [rtrim]
    rcases hr : rtrim l with _ | ⟨x, xs⟩
    · by_cases ha : isJsSpace a = true
      · simp [ha]
      · simp [ha]
    · simp

theorem rtrim_append {y : Str} (hy : rtrim y ≠ []) :
    ∀ (x : Str), rtrim (x ++ y) = x ++ rtrim y
  | [] => by simp
  | a :: x => by
    rw [List.cons_append, rtrim_cons, rtrim_append hy x]
    rcases hz : rtrim y with _ | ⟨z, zs⟩
    · exact absurd hz hy
    · rcases x with _ | ⟨b, x'⟩ <;> rfl

theorem ltrim_cons_ws {a : Char} {l : Str} (ha : isJsSpace a = true) :
    ltrim (a :: l) = ltrim l := by
  simp [ltrim, List.dropWhile_cons, ha]

theorem ltrim_rtrim_comm : ∀ (l : Str), ltrim (rtrim l) = rtrim (ltrim l)
  | [] => rfl
  | a :: l => by
    by_cases ha : isJsSpace a = true
    · rcases hr : rtrim l with _ | ⟨x, xs⟩
      · have h1 : rtrim (a :: l) = [] := by
          rw [rtrim_cons, hr, if_pos ha]
        have h2 : ltrim l = [] :=
          ltrim_eq_nil_iff.mpr (rtrim_eq_nil_iff.mp hr)
        rw [h1, ltrim_cons_ws ha, h2]
        rfl
      · have h1 : rtrim (a :: l) = a :: x :: xs := by
          rw [rtrim_cons, hr]
        rw [h1, ltrim_cons_ws ha, ltrim_cons_ws ha, ← hr, ltrim_rtrim_comm l]
    · have hne : isJsSpace a = false := by simpa using ha
      have hcons : ltrim (a :: l) = a :: l := ltrim_cons_not hne
      rcases hr : rtrim l with _ | ⟨x, xs⟩
      · have h1 : rtrim (a :: l) = [a] := by
          rw [rtrim_cons, hr, if_neg ha]
        rw [h1, hcons, h1]
        exact ltrim_cons_not hne
      · have h1 : rtrim (a :: l) = a :: x :: xs := by
          rw [rtrim_cons, hr]
        rw [h1, hcons, h1, ltrim_cons_not hne]

theorem mem_ltrim {c : Char} {l : Str} (h : c ∈ ltrim l) : c ∈ l :=
  (List.dropWhile_suffix isJsSpace).subset h

theorem mem_trim {c : Char} {l : Str} (h : c ∈ trim l) : c ∈ l :=
  mem_ltrim (mem_rtrim h)

theorem trim_idem (l : Str) : trim (trim l) = trim l := by
  show rtrim (ltrim (rtrim (ltrim l))) = rtrim (ltrim l)
  rw [ltrim_rtrim_comm, ltrim_idem, rtrim_idem]

theorem trim_ltrim (l : Str) : trim (ltrim l) = trim l := by
  show rtrim (ltrim (ltrim l)) = rtrim (ltrim l)
  rw [ltrim_idem]

theorem trim_eq_nil_iff {l : Str} : trim l = [] ↔ ∀ c ∈ l, isJsSpace c = true := by
  constructor
  · intro h c hc
    by_contra hws
    have h1 : ltrim l ≠ [] := by
      intro hnil
      exact hws (ltrim_eq_nil_iff.mp hnil c hc)
    have h2 := rtrim_eq_nil_iff.mp h
    rcases hl : ltrim l with _ | ⟨x, xs⟩
    · exact h1 hl
    · have hx : isJsSpace x = false := head?_ltrim (by rw [hl]; rfl)
      have := h2 x (by rw [hl]; simp)
      simp [hx] at this
  · intro h
    have h1 : ltrim l = [] := ltrim_eq_nil_iff.mpr h
    show rtrim (ltrim l) = []
    rw [h1]
    rfl

/-! ### Evaluation of the pattern matchers -/

theorem toLower_of_space {c : Char} (h : isJsSpace c = true) :
    Char.toLower c = c := by
  simp only [isJsSpace, decide_eq_true_eq] at h
  simp only [Char.toLower]
  rw [if_neg]
  rcases h with h|h|h|h|h|h|h|h|h|h|h|h|h|h|h <;> omega

theorem not_space_of_toLower {c t : Char} (h : Char.toLower c = t)
    (ht : isJsSpace t = false) : isJsSpace c = false := by
  by_cases hc : isJsSpace c = true
  · rw [toLower_of_space hc] at h
    subst h
    rw [hc] at ht
    simp at ht
  · simpa using hc

theorem dropCI_append {r : Str} : ∀ {kwChars : Str},
    (∀ k ∈ kwChars.map Char.toLower, Char.toLower k = k) →
    dropCI (kwChars.map Char.toLower) (kwChars ++ r) = some r
  | [], _ => rfl
  | c :: cs, h => by
    simp only [List.map_cons, List.cons_append, dropCI]
    rw [if_pos (h (Char.toLower c) (by simp)).symm]
    exact dropCI_append (fun k hk => h k (List.mem_cons_of_mem _ hk))

theorem expectColon_colon (cap : Str → Option Str) (r2 : Str) :
    expectColon cap (':' :: r2) = cap r2 := by
  have h : (':' :: r2).dropWhile isJsSpace = ':' :: r2 := ltrim_cons_not (by decide)
  simp only [expectColon]
  rw [h]
  simp

theorem captureRest_eval {r2 : Str} (hne : r2.dropWhile isJsSpace ≠ [])
    (hnl : ∀ c ∈ r2, c ≠ '\n') :
    captureRest r2 = some (r2.dropWhile isJsSpace) := by
  simp only [captureRest]
  rcases hd : r2.dropWhile isJsSpace with _ | ⟨y, ys⟩
  · exact absurd hd hne
  · have hall : ∀ c ∈ y :: ys, (fun c => decide (c ≠ '\n')) c = true := by
      intro c hc
      simp only [decide_eq_true_eq]
      refine hnl c (mem_ltrim (l := r2) ?hm)
      rw [show ltrim r2 = y :: ys from hd]
      exact hc
    rw [List.takeWhile_eq_self_iff.mpr hall]

theorem captureToEnd_eval {r2 : Str} (hne : r2.dropWhile isJsSpace ≠ [])
    (hnl : ∀ c ∈ r2.dropWhile isJsSpace, c ≠ '\n') :
    captureToEnd r2 = some (r2.dropWhile isJsSpace) := by
  simp only [captureToEnd]
  rcases hd : r2.dropWhile isJsSpace with _ | ⟨y, ys⟩
  · exact absurd hd hne
  · rw [if_pos]
    apply List.all_eq_true.mpr
    intro c hc
    simp only [decide_eq_true_eq]
    exact hnl c (hd ▸ hc)

theorem rtrim_ne_nil_of_trim {rest : Str} (htr : trim rest ≠ []) :
    rtrim rest ≠ [] :=
  fun h => htr (trim_eq_nil_iff.mpr (rtrim_eq_nil_iff.mp h))

theorem ltrim_ne_nil_of_trim {rest : Str} (htr : trim rest ≠ []) :
    ltrim rest ≠ [] := by
  intro h
  apply htr
  show rtrim (ltrim rest) = []
  rw [h]
  rfl

theorem trim_keyword_content {a : Char} (kw' : Str) {rest : Str}
    (hws : isJsSpace a = false) (hrt : rtrim rest ≠ []) :
    trim (a :: kw' ++ ':' :: rest) = a :: kw' ++ ':' :: rtrim rest := by
  show rtrim (ltrim (a :: (kw' ++ ':' :: rest))) = _
  rw [ltrim_cons_not hws]
  rw [show a :: (kw' ++ ':' :: rest) = (a :: kw' ++ [':']) ++ rest by simp]
  rw [rtrim_append hrt]
  simp

theorem ltrim_rtrim_eq_trim (rest : Str) : ltrim (rtrim rest) = trim rest := by
  rw [ltrim_rtrim_comm]
  rfl

theorem anchoredKw_prefix (a : Char) (kw' rest : Str)
    (hfix : ∀ k ∈ (a :: kw').map Char.toLower, Char.toLower k = k)
    (hws : isJsSpace a = false)
    (hnl : ∀ c ∈ rest, c ≠ '\n')
    (htr : trim rest ≠ []) :
    anchoredKw ((a :: kw').map Char.toLower) (trim (a :: kw' ++ ':' :: rest)) =
      some (trim rest) := by
  have hrt : rtrim rest ≠ [] := rtrim_ne_nil_of_trim htr
  rw [trim_keyword_content kw' hws hrt]
  have hdrop : (a :: kw' ++ ':' :: rtrim rest).dropWhile isJsSpace =
      a :: kw' ++ ':' :: rtrim rest := ltrim_cons_not hws
  have key : dropCI ((a :: kw').map Char.toLower)
      (a :: kw' ++ ':' :: rtrim rest) = some (':' :: rtrim rest) :=
    dropCI_append hfix
  simp only [anchoredKw, hdrop, key, Option.some_bind]
  rw [expectColon_colon]
  have hdw : (rtrim rest).dropWhile isJsSpace = trim rest := ltrim_rtrim_eq_trim rest
  have hnl' : ∀ c ∈ (rtrim rest).dropWhile isJsSpace, c ≠ '\n' := by
    intro c hc
    rw [hdw] at hc
    exact hnl c (mem_trim hc)
  rw [captureToEnd_eval (by rw [hdw]; exact htr) hnl', hdw]

theorem anchoredKw_head_fail {k0 c1 : Char} {ks l : Str}
    (hws : isJsSpace c1 = false) (hne : Char.toLower c1 ≠ Char.toLower k0) :
    anchoredKw (k0 :: ks) (c1 :: l) = none := by
  simp only [anchoredKw]
  rw [show (c1 :: l).dropWhile isJsSpace = c1 :: l from ltrim_cons_not hws]
  simp only [dropCI]
  rw [if_neg hne]
  rfl

/-- The `oc:` arm of `parseOCName`: a trimmed content of the shape
`<o><c>:<rest>` with case-insensitive `oc` yields `<rest>` trimmed. -/
theorem parseOCName_oc (c1 c2 : Char) (rest : Str)
    (h1 : Char.toLower c1 = 'o') (h2 : Char.toLower c2 = 'c')
    (hnl : ∀ c ∈ rest, c ≠ '\n') (htr : trim rest ≠ []) :
    parseOCName (c1 :: c2 :: ':' :: rest) = trim rest := by
  have hws : isJsSpace c1 = false := not_space_of_toLower h1 (by decide)
  have hkw := anchoredKw_prefix c1 [c2] rest
    (by
      rw [show (c1 :: [c2]).map Char.toLower = ['o', 'c'] by simp [h1, h2]]
      decide)
    hws hnl htr
  rw [show (c1 :: [c2]).map Char.toLower = ['o', 'c'] by simp [h1, h2]] at hkw
  have hkw2 : anchoredKw ['o', 'c'] (trim (c1 :: c2 :: ':' :: rest)) =
      some (trim rest) := hkw
  unfold parseOCName
  rw [hkw2]
  exact trim_idem rest

/-- The `name:` arm of `parseOCName`: the `oc:` pattern fails on a
`name:`-prefixed content, and the `name:` pattern yields the remainder
trimmed. -/
theorem parseOCName_name (c1 c2 c3 c4 : Char) (rest : Str)
    (h1 : Char.toLower c1 = 'n') (h2 : Char.toLower c2 = 'a')
    (h3 : Char.toLower c3 = 'm') (h4 : Char.toLower c4 = 'e')
    (hnl : ∀ c ∈ rest, c ≠ '\n') (htr : trim rest ≠ []) :
    parseOCName (c1 :: c2 :: c3 :: c4 :: ':' :: rest) = trim rest := by
  have hws : isJsSpace c1 = false := not_space_of_toLower h1 (by decide)
  have hrt : rtrim rest ≠ [] := rtrim_ne_nil_of_trim htr
  have hkw := anchoredKw_prefix c1 [c2, c3, c4] rest
    (by
      rw [show (c1 :: [c2, c3, c4]).map Char.toLower = ['n', 'a', 'm', 'e'] by
        simp [h1, h2, h3, h4]]
      decide)
    hws hnl htr
  rw [show (c1 :: [c2, c3, c4]).map Char.toLower = ['n', 'a', 'm', 'e'] by
    simp [h1, h2, h3, h4]] at hkw
  have hkw2 : anchoredKw ['n', 'a', 'm', 'e']
      (trim (c1 :: c2 :: c3 :: c4 :: ':' :: rest)) = some (trim rest) := hkw
  have htc : trim (c1 :: c2 :: c3 :: c4 :: ':' :: rest) =
      c1 :: [c2, c3, c4] ++ ':' :: rtrim rest :=
    trim_keyword_content [c2, c3, c4] hws hrt
  have hfail : anchoredKw ['o', 'c']
      (trim (c1 :: c2 :: c3 :: c4 :: ':' :: rest)) = none := by
    rw [htc]
    exact anchoredKw_head_fail hws (by rw [h1]; decide)
  unfold parseOCName
  rw [hfail, hkw2]
  exact trim_idem rest

/-- The fallback arm of `parseOCName`: when neither anchored pattern
matches the trimmed content, the whole trimmed content is the result. -/
theorem parseOCName_fallback {content : Str}
    (h1 : anchoredKw ['o', 'c'] (trim content) = none)
    (h2 : anchoredKw ['n', 'a', 'm', 'e'] (trim content) = none) :
    parseOCName content = trim content := by
  unfold parseOCName
  rw [h1, h2]
  exact trim_idem content

/-- The unanchored embed-title pattern succeeds at position zero on a title
of the shape `<o><c>:<rest>`. -/
theorem scanOC_keyword (c1 c2 : Char) (rest : Str)
    (h1 : Char.toLower c1 = 'o') (h2 : Char.toLower c2 = 'c')
    (hnl : ∀ c ∈ rest, c ≠ '\n') (hlt : ltrim rest ≠ []) :
    scanOC (c1 :: c2 :: ':' :: rest) = some (ltrim rest) := by
  have hm : matchOCAt (c1 :: c2 :: ':' :: rest) = some (ltrim rest) := by
    have key : dropCI ([c1, c2].map Char.toLower) ([c1, c2] ++ (':' :: rest)) =
        some (':' :: rest) :=
      dropCI_append
        (by
          rw [show (List.map Char.toLower [c1, c2]) = ['o', 'c'] by simp [h1, h2]]
          decide)
    rw [show (List.map Char.toLower [c1, c2]) = ['o', 'c'] by simp [h1, h2]] at key
    have key2 : dropCI ['o', 'c'] (c1 :: c2 :: ':' :: rest) =
        some (':' :: rest) := key
    simp only [matchOCAt, key2, Option.some_bind]
    rw [expectColon_colon]
    exact captureRest_eval hlt hnl
  simp only [scanOC, hm]

/-- Claim C2 counterexample: on the input of 89 `a`s, a space and a `b`, the
90-character truncation runs after hyphen trimming, so the slug ends in a
hyphen and slugifying it again removes that hyphen; slugify is neither
idempotent nor trailing-hyphen-free as claimed. -/
theorem slugify_truncation_breaks_idempotence :
    slugify (slugify (List.replicate 89 'a' ++ [' ', 'b'])) ≠
      slugify (List.replicate 89 'a' ++ [' ', 'b']) ∧
    (slugify (List.replicate 89 'a' ++ [' ', 'b'])).getLast? = some '-' := by
  decide

/-- Claim C2 (amended): every `slugify` output matches `[a-z0-9-]*`, never
starts with a hyphen and has length at most 90; and whenever the slug before
the final truncation has at most 90 characters (in particular whenever no
truncation happens), `slugify` is idempotent on that input and the output
has no trailing hyphen. -/
theorem slugify_spec (x : Str) :
    (∀ c ∈ slugify x, isSlugChar c = true) ∧
    (slugify x).head? ≠ some '-' ∧
    (slugify x).length ≤ 90 ∧
    ((slugCore x).length ≤ 90 →
      slugify (slugify x) = slugify x ∧ (slugify x).getLast? ≠ some '-') := by
  refine ⟨?_, ?_, ?_, ?_⟩
  · intro c hc
    exact slugCore_mem (List.mem_of_mem_take hc)
  · show (List.take 90 (slugCore x)).head? ≠ some '-'
    rw [head?_take_ninety]
    exact slugCore_head x
  · simp only [slugify, List.length_take]
    omega
  · intro h
    have hx : slugify x = slugCore x := List.take_of_length_le h
    refine ⟨?_, ?_⟩
    · rw [hx]
      show (slugCore (slugCore x)).take 90 = slugCore x
      rw [slugCore_idem]
      exact List.take_of_length_le h
    · rw [hx]
      exact slugCore_last x

/-- Claim C2 witness: a concrete short name where no truncation happens, so
the charset, idempotence and trailing-hyphen properties hold concretely. -/
theorem slugify_spec_instance :
    isSlugChar 'm' = true ∧
    slugify (slugify ("Mito Uzumaki".toList)) = slugify ("Mito Uzumaki".toList) ∧
    (slugify ("Mito Uzumaki".toList)).getLast? ≠ some '-' :=
  ⟨(slugify_spec ("Mito Uzumaki".toList)).1 'm' (by decide),
   ((slugify_spec ("Mito Uzumaki".toList)).2.2.2 (by decide)).1,
   ((slugify_spec ("Mito Uzumaki".toList)).2.2.2 (by decide)).2⟩

/-! ### Effect bookkeeping for the handler pipeline -/

def isReplyEff : Effect → Bool
  | Effect.reply _ => true
  | _ => false

def isCreateEff : Effect → Bool
  | Effect.createdRole _ _ => true
  | Effect.createdChannel _ _ => true
  | _ => false

/-- An embed-replication effect only ever carries the first embed of the
triggering message. -/
def copiedFromFirst (m : Msg) : Effect → Prop
  | Effect.copiedEmbed _ e => m.embeds.head? = some e
  | _ => True

theorem doLog_world (cfg : Config) (f : Faults) (w : World) (m : Msg)
    (fullName : Str) (role : Role) (ch : Channel) (eff : List Effect) :
    (doLog cfg f w m fullName role ch eff).1 = w := by
  unfold doLog
  split
  · rfl
  · split
    · rfl
    · split
      · split
        · rfl
        · rfl
      · rfl

theorem doLog_effects (cfg : Config) (f : Faults) (w : World) (m : Msg)
    (fullName : Str) (role : Role) (ch : Channel) (eff : List Effect) :
    ∀ e ∈ (doLog cfg f w m fullName role ch eff).2.1,
      e ∈ eff ∨ (isReplyEff e = false ∧ isCreateEff e = false ∧
        copiedFromFirst m e) := by
  unfold doLog
  split
  · exact fun e he => Or.inl he
  · split
    · exact fun e he => Or.inl he
    · split
      · split
        · exact fun e he => Or.inl he
        · intro e he
          rcases List.mem_append.mp he with he | he
          · exact Or.inl he
          · simp only [List.mem_singleton] at he
            subst he
            exact Or.inr ⟨rfl, rfl, trivial⟩
      · exact fun e he => Or.inl he

theorem assignAndLog_world (cfg : Config) (f : Faults) (w : World) (m : Msg)
    (fullName : Str) (role : Role) (ch : Channel) (eff : List Effect) :
    (assignAndLog cfg f w m fullName role ch eff).1.roles = w.roles ∧
    (assignAndLog cfg f w m fullName role ch eff).1.channels = w.channels ∧
    (assignAndLog cfg f w m fullName role ch eff).1.roster = w.roster := by
  unfold assignAndLog
  split
  · rw [doLog_world]
    exact ⟨rfl, rfl, rfl⟩
  · split
    · exact ⟨rfl, rfl, rfl⟩
    · rw [doLog_world]
      exact ⟨rfl, rfl, rfl⟩

theorem assignAndLog_effects (cfg : Config) (f : Faults) (w : World) (m : Msg)
    (fullName : Str) (role : Role) (ch : Channel) (eff : List Effect) :
    ∀ e ∈ (assignAndLog cfg f w m fullName role ch eff).2.1,
      e ∈ eff ∨ (isReplyEff e = false ∧ isCreateEff e = false ∧
        copiedFromFirst m e) := by
  unfold assignAndLog
  split
  · exact doLog_effects cfg f w m fullName role ch eff
  · split
    · exact fun e he => Or.inl he
    · intro e he
      rcases doLog_effects cfg f _ m fullName role ch _ e he with he | he
      · rcases List.mem_append.mp he with he | he
        · exact Or.inl he
        · simp only [List.mem_singleton] at he
          subst he
          exact Or.inr ⟨rfl, rfl, trivial⟩
      · exact Or.inr he

theorem resolveChannel_effects (cfg : Config) (f : Faults) (w : World) (m : Msg)
    (fullName : Str) (role : Role) (channelName : Str) (eff : List Effect) :
    ∀ e ∈ (resolveChannel cfg f w m fullName role channelName eff).2.1,
      e ∈ eff ∨ (isReplyEff e = false ∧ copiedFromFirst m e) := by
  unfold resolveChannel
  split
  · intro e he
    rcases assignAndLog_effects cfg f w m fullName role _ eff e he with he | he
    · exact Or.inl he
    · exact Or.inr ⟨he.1, he.2.2⟩
  · split
    · exact fun e he => Or.inl he
    · split
      · intro e he
        rcases List.mem_append.mp he with he | he
        · exact Or.inl he
        · simp only [List.mem_singleton] at he
          subst he
          exact Or.inr ⟨rfl, trivial⟩
      · intro e he
        rcases assignAndLog_effects cfg f _ m fullName role _ _ e he with he | he
        · rcases List.mem_append.mp he with he | he
          · rcases List.mem_append.mp he with he | he
            · rcases List.mem_append.mp he with he | he
              · exact Or.inl he
              · simp only [List.mem_singleton] at he
                subst he
                exact Or.inr ⟨rfl, trivial⟩
            · simp only [List.mem_singleton] at he
              subst he
              exact Or.inr ⟨rfl, trivial⟩
          · right
            unfold embedCopyEffects at he
            rcases hemb : m.embeds with _ | ⟨e0, es⟩ <;> rw [hemb] at he
            · simp at he
            · have he' : e ∈ (if f.embedCopyFail = true
                  then [Effect.warnedEmbedCopy w.nextId]
                  else [Effect.copiedEmbed w.nextId e0]) := he
              by_cases hf : f.embedCopyFail = true
              · rw [if_pos hf, List.mem_singleton] at he'
                subst he'
                exact ⟨rfl, trivial⟩
              · rw [if_neg hf, List.mem_singleton] at he'
                subst he'
                refine ⟨rfl, ?_⟩
                show m.embeds.head? = some e0
                rw [hemb]
                rfl
        · exact Or.inr ⟨he.1, he.2.2⟩

theorem resolveRole_effects (cfg : Config) (f : Faults) (w : World) (m : Msg)
    (fullName roleName channelName : Str) :
    ∀ e ∈ (resolveRole cfg f w m fullName roleName channelName).2.1,
      isReplyEff e = false ∧ copiedFromFirst m e := by
  unfold resolveRole
  split
  · intro e he
    rcases resolveChannel_effects cfg f w m fullName _ channelName [] e he with he | he
    · simp at he
    · exact he
  · split
    · intro e he
      simp at he
    · intro e he
      rcases resolveChannel_effects cfg f _ m fullName _ channelName _ e he with he | he
      · simp only [List.mem_singleton] at he
        subst he
        exact ⟨rfl, trivial⟩
      · exact he

theorem resolveChannel_roster (cfg : Config) (f : Faults) (w : World) (m : Msg)
    (fullName : Str) (role : Role) (channelName : Str) (eff : List Effect) :
    (resolveChannel cfg f w m fullName role channelName eff).1.roster = w.roster := by
  unfold resolveChannel
  split
  · exact (assignAndLog_world cfg f w m fullName role _ eff).2.2
  · split
    · rfl
    · split
      · rfl
      · rw [(assignAndLog_world cfg f _ m fullName role _ _).2.2]

theorem resolveRole_roster (cfg : Config) (f : Faults) (w : World) (m : Msg)
    (fullName roleName channelName : Str) :
    (resolveRole cfg f w m fullName roleName channelName).1.roster = w.roster := by
  unfold resolveRole
  split
  · exact resolveChannel_roster cfg f w m fullName _ channelName []
  · split
    · rfl
    · rw [resolveChannel_roster]

theorem doLog_ok (cfg : Config) (f : Faults) (w : World) (m : Msg)
    (fullName : Str) (role : Role) (ch : Channel) (eff : List Effect)
    (h : f.logSendFail = false) :
    (doLog cfg f w m fullName role ch eff).2.2 = none := by
  unfold doLog
  split
  · rfl
  · split
    · rfl
    · split
      · rw [if_neg (show ¬f.logSendFail = true by simp [h])]
      · rfl

theorem assignAndLog_ok (cfg : Config) (f : Faults) (w : World) (m : Msg)
    (fullName : Str) (role : Role) (ch : Channel) (eff : List Effect)
    (h1 : f.roleAddFail = false) (h2 : f.logSendFail = false) :
    (assignAndLog cfg f w m fullName role ch eff).2.2 = none := by
  unfold assignAndLog
  split
  · exact doLog_ok cfg f w m fullName role ch eff h2
  · rw [if_neg (show ¬f.roleAddFail = true by simp [h1])]
    exact doLog_ok cfg f _ m fullName role ch _ h2

theorem resolveChannel_ok (cfg : Config) (f : Faults) (w : World) (m : Msg)
    (fullName : Str) (role : Role) (channelName : Str) (eff : List Effect)
    (h1 : f.channelCreateFail = false) (h2 : f.welcomeFail = false)
    (h3 : f.roleAddFail = false) (h4 : f.logSendFail = false) :
    (resolveChannel cfg f w m fullName role channelName eff).2.2 = none := by
  unfold resolveChannel
  split
  · exact assignAndLog_ok cfg f w m fullName role _ eff h3 h4
  · rw [if_neg (show ¬f.channelCreateFail = true by simp [h1]),
      if_neg (show ¬f.welcomeFail = true by simp [h2])]
    exact assignAndLog_ok cfg f _ m fullName role _ _ h3 h4

theorem resolveRole_ok (cfg : Config) (f : Faults) (w : World) (m : Msg)
    (fullName roleName channelName : Str)
    (h0 : f.roleCreateFail = false) (h1 : f.channelCreateFail = false)
    (h2 : f.welcomeFail = false) (h3 : f.roleAddFail = false)
    (h4 : f.logSendFail = false) :
    (resolveRole cfg f w m fullName roleName channelName).2.2 = none := by
  unfold resolveRole
  split
  · exact resolveChannel_ok cfg f w m fullName _ channelName [] h1 h2 h3 h4
  · rw [if_neg (show ¬f.roleCreateFail = true by simp [h0])]
    exact resolveChannel_ok cfg f _ m fullName _ channelName _ h1 h2 h3 h4

theorem runBody_noFaults_ok (cfg : Config) (r : FetchOut) (w : World) (m : Msg) :
    (runBody cfg (noFaults r) w m).2.2 = none := by
  unfold runBody
  simp only [noFaults, Bool.false_eq_true, if_false]
  split
  · rfl
  · split
    · rfl
    · split
      · rfl
      · split
        · rfl
        · split
          · rfl
          · split
            · rfl
            · exact resolveRole_ok cfg _ _ m _ _ _ rfl rfl rfl rfl rfl

/-! ### Concrete fixtures for the witnesses -/

def sampleCfg : Config := ⟨1, 2, some 5, 3, some 4, some 6⟩

def sampleCfgNoGM : Config := ⟨1, 2, none, 3, none, none⟩

def sampleWorld : World := ⟨[], [], 9, [], [], 100⟩

def sampleMsg : Msg := ⟨false, none, some 1, 2, "OC: Mito Uzumaki".toList, [], 7⟩

def sampleBotMsg : Msg := ⟨true, none, some 1, 2, "OC: Mito Uzumaki".toList, [], 7⟩

def gaaraMsg : Msg := ⟨false, none, some 1, 2, "Gaara".toList, [], 7⟩

def gaaraRoster : FetchOut := FetchOut.ok "Timestamp,Name\n1,Gaara".toList

def welcomeFaults : Faults :=
  ⟨FetchOut.netErr, false, false, false, false, true, false, false, false⟩

/-! ### The pipeline claims -/

/-- Claim C6: a message from a bot author without a webhook identity, or a
message outside the configured guild (including one with no guild at all) or
outside the configured submissions channel, is dropped silently: the world
is unchanged, no effect of any kind is emitted (no roster fetch, no
creation, no message) and nothing throws. -/
theorem scope_guards_silent (cfg : Config) (f : Faults) (w : World) (m : Msg)
    (h : (m.authorBot = true ∧ m.webhookId = none) ∨
      m.guildId ≠ some cfg.guildId ∨ m.channelId ≠ cfg.submissionsChannelId) :
    runBody cfg f w m = (w, [], none) := by
  unfold runBody
  by_cases h1 : m.authorBot = true ∧ m.webhookId = none
  · rw [if_pos h1]
  · rw [if_neg h1]
    by_cases h2 : m.guildId ≠ some cfg.guildId
    · rw [if_pos h2]
    · rw [if_neg h2]
      rcases h with h | h | h
      · exact absurd h h1
      · exact absurd h h2
      · rw [if_pos h]

/-- Claim C6 witness: a bot-authored message without webhook identity is
dropped with no state change and no effects. -/
theorem scope_guards_silent_instance :
    runBody sampleCfg (noFaults (FetchOut.ok [])) sampleWorld sampleBotMsg =
      (sampleWorld, [], none) :=
  scope_guards_silent sampleCfg (noFaults (FetchOut.ok [])) sampleWorld sampleBotMsg
    (Or.inl ⟨rfl, rfl⟩)

/-- Claim C8: the handler body runs under a single boundary catch, so
`handleMessage` always returns the world and effects of the body whether or
not a step threw; and whenever some step did throw, the effects performed
contain no user-visible reply. -/
theorem handler_catches_errors (cfg : Config) (f : Faults) (w : World) (m : Msg) :
    handleMessage cfg f w m = ((runBody cfg f w m).1, (runBody cfg f w m).2.1) ∧
    ((runBody cfg f w m).2.2 = some () →
      ∀ e ∈ (runBody cfg f w m).2.1, isReplyEff e = false) := by
  refine ⟨rfl, ?_⟩
  intro herr e he
  unfold runBody at herr he
  by_cases h1 : m.authorBot = true ∧ m.webhookId = none
  · rw [if_pos h1] at herr
    simp at herr
  · rw [if_neg h1] at herr he
    by_cases h2 : m.guildId ≠ some cfg.guildId
    · rw [if_pos h2] at herr
      simp at herr
    · rw [if_neg h2] at herr he
      by_cases h3 : m.channelId ≠ cfg.submissionsChannelId
      · rw [if_pos h3] at herr
        simp at herr
      · rw [if_neg h3] at herr he
        by_cases h4 : extractFullName m = []
        · rw [if_pos h4] at herr
          simp at herr
        · rw [if_neg h4] at herr he
          by_cases h5 : (extractFullName m).map Char.toLower ∈
              loadExistingOCs f.rosterFetch
          · rw [if_pos h5] at herr he
            by_cases hr : f.replyFail = true
            · rw [if_pos hr] at he
              simp at he
            · rw [if_neg hr] at herr
              simp at herr
          · rw [if_neg h5] at herr he
            by_cases h6 : (splitWs (extractFullName m)).length < 2
            · rw [if_pos h6] at herr he
              by_cases hr : f.replyFail = true
              · rw [if_pos hr] at he
                simp at he
              · rw [if_neg hr] at herr
                simp at herr
            · rw [if_neg h6] at herr he
              by_cases h7 : f.guildFetchFail = true
              · rw [if_pos h7] at he
                simp at he
              · rw [if_neg h7] at herr he
                exact (resolveRole_effects cfg f _ m _ _ _ e he).1

/-- Claim C8 witness: with the welcome-message send failing, the body
reports a caught error and none of the performed effects is a reply. -/
theorem handler_catches_errors_instance :
    isReplyEff (Effect.createdRole 100 "Mito".toList) = false :=
  (handler_catches_errors sampleCfg welcomeFaults sampleWorld sampleMsg).2
    (by decide) (Effect.createdRole 100 "Mito".toList) (by decide)

/-- Claim C10: the in-memory roster set is only ever replaced wholesale by
the fetch result, never extended with the provisioned name: after any run
the roster is either untouched or exactly the freshly fetched set, and a
name absent from both is still absent afterwards, so a resubmission passes
the duplicate check again unless the external document gained the name. -/
theorem roster_wholesale (cfg : Config) (f : Faults) (w : World) (m : Msg) :
    ((runBody cfg f w m).1.roster = w.roster ∨
      (runBody cfg f w m).1.roster = loadExistingOCs f.rosterFetch) ∧
    ((extractFullName m).map Char.toLower ∉ loadExistingOCs f.rosterFetch →
      (extractFullName m).map Char.toLower ∉ w.roster →
      (extractFullName m).map Char.toLower ∉ (runBody cfg f w m).1.roster) := by
  have hmain : (runBody cfg f w m).1.roster = w.roster ∨
      (runBody cfg f w m).1.roster = loadExistingOCs f.rosterFetch := by
    unfold runBody
    split
    · exact Or.inl rfl
    · split
      · exact Or.inl rfl
      · split
        · exact Or.inl rfl
        · split
          · exact Or.inl rfl
          · split
            · split
              · exact Or.inr rfl
              · exact Or.inr rfl
            · split
              · split
                · exact Or.inr rfl
                · exact Or.inr rfl
              · split
                · exact Or.inr rfl
                · right
                  rw [resolveRole_roster]
  refine ⟨hmain, ?_⟩
  intro hload hw
  rcases hmain with h | h <;> rw [h]
  · exact hw
  · exact hload

/-- Claim C10 witness: a provisioning run with a failed roster fetch leaves
the provisioned name out of the roster snapshot. -/
theorem roster_wholesale_instance :
    (extractFullName sampleMsg).map Char.toLower ∉
      (runBody sampleCfg (noFaults FetchOut.netErr) sampleWorld sampleMsg).1.roster :=
  (roster_wholesale sampleCfg (noFaults FetchOut.netErr) sampleWorld sampleMsg).2
    (by decide) (by decide)

/-- Claim C3: the duplicate check lowercases the extracted name and runs
before the part-count validation: an in-roster name is answered with the
duplicate reply and nothing else regardless of its number of parts, and the
format-help reply is only ever sent for names not in the (lowercased)
roster. -/
theorem duplicate_check_first (cfg : Config) (r : FetchOut) (w : World) (m : Msg) :
    ((¬(m.authorBot = true ∧ m.webhookId = none)) →
      m.guildId = some cfg.guildId →
      m.channelId = cfg.submissionsChannelId →
      extractFullName m ≠ [] →
      (extractFullName m).map Char.toLower ∈ loadExistingOCs r →
      runBody cfg (noFaults r) w m =
        ({ w with roster := loadExistingOCs r },
          [Effect.reply (ReplyKind.duplicate (extractFullName m))], none)) ∧
    (∀ f : Faults, Effect.reply ReplyKind.formatHelp ∈ (runBody cfg f w m).2.1 →
      (extractFullName m).map Char.toLower ∉ loadExistingOCs f.rosterFetch) := by
  constructor
  · intro h1 h2 h3 h4 h5
    unfold runBody
    simp only [noFaults, Bool.false_eq_true, if_false]
    rw [if_neg h1, if_neg (not_not_intro h2), if_neg (not_not_intro h3),
      if_neg h4, if_pos h5]
  · intro f he
    unfold runBody at he
    by_cases h1 : m.authorBot = true ∧ m.webhookId = none
    · rw [if_pos h1] at he
      simp at he
    · rw [if_neg h1] at he
      by_cases h2 : m.guildId ≠ some cfg.guildId
      · rw [if_pos h2] at he
        simp at he
      · rw [if_neg h2] at he
        by_cases h3 : m.channelId ≠ cfg.submissionsChannelId
        · rw [if_pos h3] at he
          simp at he
        · rw [if_neg h3] at he
          by_cases h4 : extractFullName m = []
          · rw [if_pos h4] at he
            simp at he
          · rw [if_neg h4] at he
            by_cases h5 : (extractFullName m).map Char.toLower ∈
                loadExistingOCs f.rosterFetch
            · rw [if_pos h5] at he
              by_cases hr : f.replyFail = true
              · rw [if_pos hr] at he
                simp at he
              · rw [if_neg hr] at he
                simp only [List.mem_singleton] at he
                simp at he
            · exact h5
  
/-- Claim C3 witness: a single-token name that is in the roster gets the
duplicate reply (the part-count validation never runs), and a run that
produced the format-help reply had a name outside the roster. -/
theorem duplicate_check_first_instance :
    runBody sampleCfg (noFaults gaaraRoster) sampleWorld gaaraMsg =
      ({ sampleWorld with roster := loadExistingOCs gaaraRoster },
        [Effect.reply (ReplyKind.duplicate (extractFullName gaaraMsg))], none) ∧
    (extractFullName gaaraMsg).map Char.toLower ∉
      loadExistingOCs (noFaults FetchOut.netErr).rosterFetch :=
  ⟨(duplicate_check_first sampleCfg gaaraRoster sampleWorld gaaraMsg).1
      (by decide) rfl rfl (by decide) (by decide),
   (duplicate_check_first sampleCfg FetchOut.netErr sampleWorld gaaraMsg).2
      (noFaults FetchOut.netErr) (by decide)⟩

theorem extractFullName_embed_some {m : Msg} {n : Str} (h : embedName m = some n)
    (hne : n ≠ []) : extractFullName m = n := by
  unfold extractFullName
  rw [h]
  show (if n = [] then parseOCName m.content else n) = n
  rw [if_neg hne]

theorem extractFullName_embed_none {m : Msg} (h : embedName m = none) :
    extractFullName m = parseOCName m.content := by
  unfold extractFullName
  rw [h]

theorem extractFullName_embed_empty {m : Msg} (h : embedName m = some []) :
    extractFullName m = parseOCName m.content := by
  unfold extractFullName
  rw [h]
  show (if ([] : Str) = [] then parseOCName m.content else []) = parseOCName m.content
  rw [if_pos rfl]

/-- Claim C9: only the first embed is ever consulted: when the first embed
has no title or its title yields no (or an empty) capture, extraction falls
back to the plain text even if a later embed's title would match; and any
embed replicated into the new channel is the message's first embed. -/
theorem first_embed_only (cfg : Config) (f : Faults) (w : World) (m : Msg) :
    (∀ (e0 : Embed) (es : List Embed),
      m.embeds = e0 :: es →
      (firstEmbedCand e0 = none ∨ firstEmbedCand e0 = some []) →
      extractFullName m = parseOCName m.content) ∧
    (∀ (chId : Nat) (em : Embed),
      Effect.copiedEmbed chId em ∈ (runBody cfg f w m).2.1 →
      m.embeds.head? = some em) := by
  constructor
  · intro e0 es hemb hc
    have hn : embedName m = firstEmbedCand e0 := by
      unfold embedName
      rw [hemb]
    rcases hc with hc | hc
    · exact extractFullName_embed_none (hn.trans hc)
    · exact extractFullName_embed_empty (hn.trans hc)
  · intro chId em he
    unfold runBody at he
    by_cases h1 : m.authorBot = true ∧ m.webhookId = none
    · rw [if_pos h1] at he
      simp at he
    · rw [if_neg h1] at he
      by_cases h2 : m.guildId ≠ some cfg.guildId
      · rw [if_pos h2] at he
        simp at he
      · rw [if_neg h2] at he
        by_cases h3 : m.channelId ≠ cfg.submissionsChannelId
        · rw [if_pos h3] at he
          simp at he
        · rw [if_neg h3] at he
          by_cases h4 : extractFullName m = []
          · rw [if_pos h4] at he
            simp at he
          · rw [if_neg h4] at he
            by_cases h5 : (extractFullName m).map Char.toLower ∈
                loadExistingOCs f.rosterFetch
            · rw [if_pos h5] at he
              by_cases hr : f.replyFail = true
              · rw [if_pos hr] at he
                simp at he
              · rw [if_neg hr] at he
                simp at he
            · rw [if_neg h5] at he
              by_cases h6 : (splitWs (extractFullName m)).length < 2
              · rw [if_pos h6] at he
                by_cases hr : f.replyFail = true
                · rw [if_pos hr] at he
                  simp at he
                · rw [if_neg hr] at he
                  simp at he
              · rw [if_neg h6] at he
                by_cases h7 : f.guildFetchFail = true
                · rw [if_pos h7] at he
                  simp at he
                · rw [if_neg h7] at he
                  exact (resolveRole_effects cfg f _ m _ _ _ _ he).2

def twoEmbedMsg : Msg :=
  ⟨false, none, some 1, 2, "Name: Good Twin".toList,
    [⟨some "hello there".toList, 0⟩, ⟨some "OC: Evil Twin".toList, 1⟩], 7⟩

def copyMsg : Msg :=
  ⟨false, none, some 1, 2, [],
    [⟨some "OC: Mito Uzumaki".toList, 5⟩, ⟨some "OC: Other".toList, 6⟩], 7⟩

/-- Claim C9 witness: with a non-matching first embed the extraction ignores
a matching second embed and falls back to the text, and a concrete run
replicates exactly the first embed. -/
theorem first_embed_only_instance :
    extractFullName twoEmbedMsg = parseOCName twoEmbedMsg.content ∧
    copyMsg.embeds.head? = some ⟨some "OC: Mito Uzumaki".toList, 5⟩ :=
  ⟨(first_embed_only sampleCfg (noFaults FetchOut.netErr) sampleWorld twoEmbedMsg).1
      ⟨some "hello there".toList, 0⟩ [⟨some "OC: Evil Twin".toList, 1⟩]
      rfl (by decide),
   (first_embed_only sampleCfg (noFaults FetchOut.netErr) sampleWorld copyMsg).2
      101 ⟨some "OC: Mito Uzumaki".toList, 5⟩ (by decide)⟩

/-- Claim C4: the roster refresh never propagates an error: a rejected
fetch and a non-ok response both produce the empty set (so the duplicate
check then passes every name), and on success the result contains exactly
the lowercased trimmed second-column values of the non-header, non-blank
rows, blank names skipped. -/
theorem loadExistingOCs_spec :
    loadExistingOCs FetchOut.netErr = [] ∧
    loadExistingOCs FetchOut.httpErr = [] ∧
    (∀ (body x : Str),
      x ∈ loadExistingOCs (FetchOut.ok body) ↔
        ∃ line ∈ ((splitLines body).filter
            (fun l => decide (0 < (trim l).length))).drop 1,
          trim ((splitComma line).getD 1 []) ≠ [] ∧
          x = (trim ((splitComma line).getD 1 [])).map Char.toLower) := by
  refine ⟨rfl, rfl, ?_⟩
  intro body x
  show x ∈ parseRoster body ↔ _
  unfold parseRoster
  rw [List.mem_filterMap]
  constructor
  · rintro ⟨line, hline, hx⟩
    refine ⟨line, hline, ?_⟩
    by_cases h : trim ((splitComma line).getD 1 []) = []
    · rw [if_pos h] at hx
      exact absurd hx (by simp)
    · rw [if_neg h] at hx
      exact ⟨h, (Option.some.inj hx).symm⟩
  · rintro ⟨line, hline, hne, rfl⟩
    exact ⟨line, hline, by rw [if_neg hne]⟩

def sampleCsv : Str := "Timestamp,Name\n1,Sakura Haruno\n2,   \n\n3,NARUTO".toList

/-- Claim C4 witness: a concrete sheet body yields the lowercased name of a
data row through the membership characterization. -/
theorem loadExistingOCs_spec_instance :
    "sakura haruno".toList ∈ loadExistingOCs (FetchOut.ok sampleCsv) :=
  (loadExistingOCs_spec.2.2 sampleCsv "sakura haruno".toList).mpr
    ⟨"1,Sakura Haruno".toList, by decide, by decide, by decide⟩

/-- Claim C5: name extraction: when the first embed's title matches the
`OC: <rest>` pattern (case-insensitive) the candidate is `<rest>` trimmed;
otherwise a trimmed text content with an `oc:` or `name:` prefix
(case-insensitive) yields the remainder trimmed; with neither prefix the
candidate is the entire trimmed text; and when the result is empty the
pipeline returns with no action and no reply. -/
theorem name_extraction_spec :
    (∀ (c1 c2 : Char) (rest : Str) (pl : Nat) (es : List Embed) (ab : Bool)
        (wh gid : Option Nat) (cid : Nat) (content : Str) (aid : Nat),
      Char.toLower c1 = 'o' → Char.toLower c2 = 'c' →
      (∀ c ∈ rest, c ≠ '\n') → trim rest ≠ [] →
      extractFullName
        ⟨ab, wh, gid, cid, content,
          ⟨some (c1 :: c2 :: ':' :: rest), pl⟩ :: es, aid⟩ = trim rest) ∧
    (∀ (c1 c2 : Char) (rest : Str),
      Char.toLower c1 = 'o' → Char.toLower c2 = 'c' →
      (∀ c ∈ rest, c ≠ '\n') → trim rest ≠ [] →
      parseOCName (c1 :: c2 :: ':' :: rest) = trim rest) ∧
    (∀ (c1 c2 c3 c4 : Char) (rest : Str),
      Char.toLower c1 = 'n' → Char.toLower c2 = 'a' →
      Char.toLower c3 = 'm' → Char.toLower c4 = 'e' →
      (∀ c ∈ rest, c ≠ '\n') → trim rest ≠ [] →
      parseOCName (c1 :: c2 :: c3 :: c4 :: ':' :: rest) = trim rest) ∧
    (∀ content : Str,
      anchoredKw ['o', 'c'] (trim content) = none →
      anchoredKw ['n', 'a', 'm', 'e'] (trim content) = none →
      parseOCName content = trim content) ∧
    (∀ (cfg : Config) (f : Faults) (w : World) (m : Msg),
      extractFullName m = [] → runBody cfg f w m = (w, [], none)) := by
  refine ⟨?_, ?_, ?_, ?_, ?_⟩
  · intro c1 c2 rest pl es ab wh gid cid content aid h1 h2 hnl htr
    have hlt : ltrim rest ≠ [] := ltrim_ne_nil_of_trim htr
    apply extractFullName_embed_some
    · show (scanOC (c1 :: c2 :: ':' :: rest)).map trim = some (trim rest)
      rw [scanOC_keyword c1 c2 rest h1 h2 hnl hlt]
      show some (trim (ltrim rest)) = some (trim rest)
      rw [trim_ltrim]
    · exact htr
  · exact fun c1 c2 rest h1 h2 hnl htr => parseOCName_oc c1 c2 rest h1 h2 hnl htr
  · exact fun c1 c2 c3 c4 rest h1 h2 h3 h4 hnl htr =>
      parseOCName_name c1 c2 c3 c4 rest h1 h2 h3 h4 hnl htr
  · exact fun content h1 h2 => parseOCName_fallback h1 h2
  · intro cfg f w m hm
    unfold runBody
    by_cases h1 : m.authorBot = true ∧ m.webhookId = none
    · rw [if_pos h1]
    · rw [if_neg h1]
      by_cases h2 : m.guildId ≠ some cfg.guildId
      · rw [if_pos h2]
      · rw [if_neg h2]
        by_cases h3 : m.channelId ≠ cfg.submissionsChannelId
        · rw [if_pos h3]
        · rw [if_neg h3, if_pos hm]

def emptyMsg : Msg := ⟨false, none, some 1, 2, "   ".toList, [], 7⟩

/-- Claim C5 witness: concrete instances of every extraction arm: an embed
title, the two text prefixes (in mixed case), the no-prefix fallback, and a
whitespace-only submission that is silently dropped. -/
theorem name_extraction_spec_instance :
    extractFullName
      ⟨false, none, some 1, 2, "ignored".toList,
        [⟨some ('O' :: 'C' :: ':' :: " Mito Uzumaki ".toList), 3⟩], 7⟩ =
      trim (" Mito Uzumaki ".toList) ∧
    parseOCName ('o' :: 'c' :: ':' :: " Sakura Haruno".toList) =
      trim (" Sakura Haruno".toList) ∧
    parseOCName ('N' :: 'a' :: 'm' :: 'E' :: ':' :: " Ino Yamanaka".toList) =
      trim (" Ino Yamanaka".toList) ∧
    parseOCName "Just A Name".toList = trim "Just A Name".toList ∧
    runBody sampleCfg (noFaults FetchOut.netErr) sampleWorld emptyMsg =
      (sampleWorld, [], none) :=
  ⟨name_extraction_spec.1 'O' 'C' (" Mito Uzumaki ".toList) 3 [] false none
      (some 1) 2 ("ignored".toList) 7 (by decide) (by decide) (by decide) (by decide),
   name_extraction_spec.2.1 'o' 'c' (" Sakura Haruno".toList)
      (by decide) (by decide) (by decide) (by decide),
   name_extraction_spec.2.2.1 'N' 'a' 'm' 'E' (" Ino Yamanaka".toList)
      (by decide) (by decide) (by decide) (by decide) (by decide) (by decide),
   name_extraction_spec.2.2.2.1 ("Just A Name".toList) (by decide) (by decide),
   name_extraction_spec.2.2.2.2 sampleCfg (noFaults FetchOut.netErr) sampleWorld
      emptyMsg (by decide)⟩

theorem resolveChannel_channels (cfg : Config) (f : Faults) (w : World) (m : Msg)
    (fullName : Str) (role : Role) (channelName : Str) (eff : List Effect) :
    (resolveChannel cfg f w m fullName role channelName eff).1.channels = w.channels ∨
    (resolveChannel cfg f w m fullName role channelName eff).1.channels =
      w.channels ++ [newChannel cfg w role channelName] := by
  unfold resolveChannel
  split
  · exact Or.inl (assignAndLog_world cfg f w m fullName role _ eff).2.1
  · split
    · exact Or.inl rfl
    · split
      · exact Or.inr rfl
      · right
        rw [(assignAndLog_world cfg f _ m fullName role _ _).2.1]

theorem resolveRole_channels (cfg : Config) (f : Faults) (w : World) (m : Msg)
    (fullName roleName channelName : Str) :
    (resolveRole cfg f w m fullName roleName channelName).1.channels = w.channels ∨
    ∃ rid chanId : Nat,
      (resolveRole cfg f w m fullName roleName channelName).1.channels =
        w.channels ++ [⟨chanId, channelName, CType.guildText, cfg.ocCategoryId,
          buildOverwrites cfg w.everyoneRoleId rid⟩] := by
  unfold resolveRole
  split
  · rename_i role _
    rcases resolveChannel_channels cfg f w m fullName role channelName [] with h | h
    · exact Or.inl h
    · right
      exact ⟨role.id, w.nextId, h⟩
  · split
    · exact Or.inl rfl
    · rcases resolveChannel_channels cfg f
        { w with
          roles := w.roles ++ [⟨w.nextId, roleName⟩],
          nextId := w.nextId + 1 }
        m fullName ⟨w.nextId, roleName⟩ channelName
        [Effect.createdRole w.nextId roleName] with h | h
      · exact Or.inl h
      · right
        exact ⟨w.nextId, w.nextId + 1, h⟩

theorem runBody_channels (cfg : Config) (f : Faults) (w : World) (m : Msg) :
    (runBody cfg f w m).1.channels = w.channels ∨
    ∃ (rid chanId : Nat) (cn : Str),
      (runBody cfg f w m).1.channels = w.channels ++
        [⟨chanId, cn, CType.guildText, cfg.ocCategoryId,
          buildOverwrites cfg w.everyoneRoleId rid⟩] := by
  unfold runBody
  split
  · exact Or.inl rfl
  · split
    · exact Or.inl rfl
    · split
      · exact Or.inl rfl
      · split
        · exact Or.inl rfl
        · split
          · split
            · exact Or.inl rfl
            · exact Or.inl rfl
          · split
            · split
              · exact Or.inl rfl
              · exact Or.inl rfl
            · split
              · exact Or.inl rfl
              · rcases resolveRole_channels cfg f
                  { w with roster := loadExistingOCs f.rosterFetch } m
                  (extractFullName m) (roleNameOf (extractFullName m))
                  (channelNameOf (extractFullName m)) with h | ⟨rid, chanId, h⟩
                · exact Or.inl h
                · right
                  exact ⟨rid, chanId, channelNameOf (extractFullName m), h⟩

/-- Claim C7: every channel present after a run is either pre-existing or
carries exactly the permission topology of the creation site: community
default denied view; the character role allowed view, send, history,
attach, embed and react; the moderator role allowed view, send, history,
manage-messages and manage-channels; and exactly when a game-master role is
configured, a fourth entry with the same management allow-set — when it is
not configured the fourth entry is absent; and with no injected platform
failures a run never reports an error, GM role configured or not. -/
theorem permission_topology (cfg : Config) (f : Faults) (w : World) (m : Msg) :
    (∀ ch ∈ (runBody cfg f w m).1.channels, ch ∈ w.channels ∨
      ∃ rid : Nat,
        (cfg.gmRoleId = none → ch.overwrites =
          [⟨w.everyoneRoleId, [], [Perm.viewChannel]⟩,
           ⟨rid, [Perm.viewChannel, Perm.sendMessages, Perm.readMessageHistory,
                  Perm.attachFiles, Perm.embedLinks, Perm.addReactions], []⟩,
           ⟨cfg.modRoleId, [Perm.viewChannel, Perm.sendMessages,
                  Perm.readMessageHistory, Perm.manageMessages,
                  Perm.manageChannels], []⟩]) ∧
        (∀ gm : Nat, cfg.gmRoleId = some gm → ch.overwrites =
          [⟨w.everyoneRoleId, [], [Perm.viewChannel]⟩,
           ⟨rid, [Perm.viewChannel, Perm.sendMessages, Perm.readMessageHistory,
                  Perm.attachFiles, Perm.embedLinks, Perm.addReactions], []⟩,
           ⟨cfg.modRoleId, [Perm.viewChannel, Perm.sendMessages,
                  Perm.readMessageHistory, Perm.manageMessages,
                  Perm.manageChannels], []⟩,
           ⟨gm, [Perm.viewChannel, Perm.sendMessages, Perm.readMessageHistory,
                  Perm.manageMessages, Perm.manageChannels], []⟩])) ∧
    (∀ r : FetchOut, (runBody cfg (noFaults r) w m).2.2 = none) := by
  constructor
  · intro ch hch
    rcases runBody_channels cfg f w m with h | ⟨rid, chanId, cn, h⟩
    · rw [h] at hch
      exact Or.inl hch
    · rw [h] at hch
      rcases List.mem_append.mp hch with hch | hch
      · exact Or.inl hch
      · simp only [List.mem_singleton] at hch
        subst hch
        right
        refine ⟨rid, ?_, ?_⟩
        · intro hgm
          show buildOverwrites cfg w.everyoneRoleId rid = _
          unfold buildOverwrites
          rw [hgm]
        · intro gm hgm
          show buildOverwrites cfg w.everyoneRoleId rid = _
          unfold buildOverwrites
          rw [hgm]
          rfl
  · intro r
    exact runBody_noFaults_ok cfg r w m

def mitoChannel : Channel :=
  ⟨101, "oc-mito-uzumaki".toList, CType.guildText, some 5,
    buildOverwrites sampleCfg 9 100⟩

/-- Claim C7 witness: the channel created by a concrete run carries the
four-entry topology (the sample configuration has a game-master role). -/
theorem permission_topology_instance :
    ∃ rid : Nat,
      (sampleCfg.gmRoleId = none → mitoChannel.overwrites =
        [⟨9, [], [Perm.viewChannel]⟩,
         ⟨rid, [Perm.viewChannel, Perm.sendMessages, Perm.readMessageHistory,
                Perm.attachFiles, Perm.embedLinks, Perm.addReactions], []⟩,
         ⟨3, [Perm.viewChannel, Perm.sendMessages, Perm.readMessageHistory,
                Perm.manageMessages, Perm.manageChannels], []⟩]) ∧
      (∀ gm : Nat, sampleCfg.gmRoleId = some gm → mitoChannel.overwrites =
        [⟨9, [], [Perm.viewChannel]⟩,
         ⟨rid, [Perm.viewChannel, Perm.sendMessages, Perm.readMessageHistory,
                Perm.attachFiles, Perm.embedLinks, Perm.addReactions], []⟩,
         ⟨3, [Perm.viewChannel, Perm.sendMessages, Perm.readMessageHistory,
                Perm.manageMessages, Perm.manageChannels], []⟩,
         ⟨gm, [Perm.viewChannel, Perm.sendMessages, Perm.readMessageHistory,
                Perm.manageMessages, Perm.manageChannels], []⟩]) :=
  ((permission_topology sampleCfg (noFaults FetchOut.netErr) sampleWorld
      sampleMsg).1 mitoChannel (by decide)).resolve_left (by decide)

theorem runBody_provision (cfg : Config) (f : Faults) (w : World) (m : Msg)
    (hb : ¬(m.authorBot = true ∧ m.webhookId = none))
    (hg : m.guildId = some cfg.guildId)
    (hc : m.channelId = cfg.submissionsChannelId)
    (hn : extractFullName m ≠ [])
    (hdup : (extractFullName m).map Char.toLower ∉ loadExistingOCs f.rosterFetch)
    (hparts : ¬((splitWs (extractFullName m)).length < 2))
    (hgf : f.guildFetchFail = false) :
    runBody cfg f w m =
      resolveRole cfg f { w with roster := loadExistingOCs f.rosterFetch } m
        (extractFullName m) (roleNameOf (extractFullName m))
        (channelNameOf (extractFullName m)) := by
  unfold runBody
  rw [if_neg hb, if_neg (not_not_intro hg), if_neg (not_not_intro hc),
    if_neg hn, if_neg hdup, if_neg hparts,
    if_neg (show ¬f.guildFetchFail = true by simp [hgf])]

theorem resolveRole_fresh (cfg : Config) (f : Faults) (w : World) (m : Msg)
    (fullName roleName channelName : Str)
    (hf1 : f.roleCreateFail = false) (hf2 : f.channelCreateFail = false)
    (hf3 : f.welcomeFail = false)
    (hrole : w.roles.find?
      (fun ro => ro.name.map Char.toLower == roleName.map Char.toLower) = none)
    (hchan : w.channels.find?
      (fun c => c.ctype == CType.guildText && c.name == channelName) = none) :
    (resolveRole cfg f w m fullName roleName channelName).1.roles =
      w.roles ++ [⟨w.nextId, roleName⟩] ∧
    (resolveRole cfg f w m fullName roleName channelName).1.channels =
      w.channels ++ [⟨w.nextId + 1, channelName, CType.guildText, cfg.ocCategoryId,
        buildOverwrites cfg w.everyoneRoleId w.nextId⟩] := by
  simp only [resolveRole, hrole]
  rw [if_neg (show ¬f.roleCreateFail = true by simp [hf1])]
  have hchan' : ({ w with
      roles := w.roles ++ [⟨w.nextId, roleName⟩],
      nextId := w.nextId + 1 } : World).channels.find?
      (fun c => c.ctype == CType.guildText && c.name == channelName) = none := hchan
  simp only [resolveChannel, hchan']
  rw [if_neg (show ¬f.channelCreateFail = true by simp [hf2]),
    if_neg (show ¬f.welcomeFail = true by simp [hf3])]
  exact ⟨(assignAndLog_world cfg f _ m fullName _ _ _).1,
    (assignAndLog_world cfg f _ m fullName _ _ _).2.1⟩

theorem resolveRole_found (cfg : Config) (f : Faults) (w : World) (m : Msg)
    (fullName roleName channelName : Str) (role : Role) (ch : Channel)
    (hrole : w.roles.find?
      (fun ro => ro.name.map Char.toLower == roleName.map Char.toLower) = some role)
    (hchan : w.channels.find?
      (fun c => c.ctype == CType.guildText && c.name == channelName) = some ch) :
    (resolveRole cfg f w m fullName roleName channelName).1.roles = w.roles ∧
    (resolveRole cfg f w m fullName roleName channelName).1.channels = w.channels ∧
    ∀ e ∈ (resolveRole cfg f w m fullName roleName channelName).2.1,
      isCreateEff e = false := by
  simp only [resolveRole, hrole, resolveChannel, hchan]
  refine ⟨(assignAndLog_world cfg f w m fullName role ch []).1,
    (assignAndLog_world cfg f w m fullName role ch []).2.1, ?_⟩
  intro e he
  rcases assignAndLog_effects cfg f w m fullName role ch [] e he with he | he
  · simp at he
  · exact he.2.1

/-- Claim C1: provisioning is idempotent: for any in-scope submission whose
extracted name has at least two parts and is not in the roster, starting
from a world with no case-insensitively matching role and no text channel
of the derived name, running the handler twice (with the same fetch result
and no other external changes) leaves exactly one role named after the
first token and exactly one text channel named `oc-<slug>`, and the second
run creates nothing: it finds the existing role (case-insensitively) and
the existing channel (by exact name) and reuses them. -/
theorem provision_idempotent (cfg : Config) (r : FetchOut) (w : World) (m : Msg)
    (hb : ¬(m.authorBot = true ∧ m.webhookId = none))
    (hg : m.guildId = some cfg.guildId)
    (hc : m.channelId = cfg.submissionsChannelId)
    (hn : extractFullName m ≠ [])
    (hdup : (extractFullName m).map Char.toLower ∉ loadExistingOCs r)
    (hparts : ¬((splitWs (extractFullName m)).length < 2))
    (hrole : ∀ ro ∈ w.roles,
      ¬((ro.name.map Char.toLower ==
        (roleNameOf (extractFullName m)).map Char.toLower) = true))
    (hchan : ∀ ch ∈ w.channels,
      ¬((ch.ctype == CType.guildText &&
        ch.name == channelNameOf (extractFullName m)) = true)) :
    ((handleMessage cfg (noFaults r)
        (handleMessage cfg (noFaults r) w m).1 m).1.roles.countP
      (fun ro => ro.name.map Char.toLower ==
        (roleNameOf (extractFullName m)).map Char.toLower) = 1) ∧
    ((handleMessage cfg (noFaults r)
        (handleMessage cfg (noFaults r) w m).1 m).1.channels.countP
      (fun ch => ch.ctype == CType.guildText &&
        ch.name == channelNameOf (extractFullName m)) = 1) ∧
    (∀ e ∈ (handleMessage cfg (noFaults r)
        (handleMessage cfg (noFaults r) w m).1 m).2,
      isCreateEff e = false) := by
  have hfr : w.roles.find? (fun ro => ro.name.map Char.toLower ==
      (roleNameOf (extractFullName m)).map Char.toLower) = none :=
    List.find?_eq_none.mpr hrole
  have hfc : w.channels.find? (fun ch => ch.ctype == CType.guildText &&
      ch.name == channelNameOf (extractFullName m)) = none :=
    List.find?_eq_none.mpr hchan
  have hrun1 : runBody cfg (noFaults r) w m =
      resolveRole cfg (noFaults r) { w with roster := loadExistingOCs r } m
        (extractFullName m) (roleNameOf (extractFullName m))
        (channelNameOf (extractFullName m)) :=
    runBody_provision cfg (noFaults r) w m hb hg hc hn hdup hparts rfl
  have hfr1 : ({ w with roster := loadExistingOCs r } : World).roles.find?
      (fun ro => ro.name.map Char.toLower ==
        (roleNameOf (extractFullName m)).map Char.toLower) = none := hfr
  have hfc1 : ({ w with roster := loadExistingOCs r } : World).channels.find?
      (fun ch => ch.ctype == CType.guildText &&
        ch.name == channelNameOf (extractFullName m)) = none := hfc
  have hfresh := resolveRole_fresh cfg (noFaults r)
    { w with roster := loadExistingOCs r } m (extractFullName m)
    (roleNameOf (extractFullName m)) (channelNameOf (extractFullName m))
    rfl rfl rfl hfr1 hfc1
  have hw1r : (runBody cfg (noFaults r) w m).1.roles =
      w.roles ++ [⟨w.nextId, roleNameOf (extractFullName m)⟩] := by
    rw [hrun1]
    exact hfresh.1
  have hw1c : (runBody cfg (noFaults r) w m).1.channels =
      w.channels ++ [⟨w.nextId + 1, channelNameOf (extractFullName m),
        CType.guildText, cfg.ocCategoryId,
        buildOverwrites cfg w.everyoneRoleId w.nextId⟩] := by
    rw [hrun1]
    exact hfresh.2
  have hrun2 : runBody cfg (noFaults r) (runBody cfg (noFaults r) w m).1 m =
      resolveRole cfg (noFaults r)
        { (runBody cfg (noFaults r) w m).1 with roster := loadExistingOCs r } m
        (extractFullName m) (roleNameOf (extractFullName m))
        (channelNameOf (extractFullName m)) :=
    runBody_provision cfg (noFaults r) _ m hb hg hc hn hdup hparts rfl
  have h2r : ({ (runBody cfg (noFaults r) w m).1 with
      roster := loadExistingOCs r } : World).roles.find?
      (fun ro => ro.name.map Char.toLower ==
        (roleNameOf (extractFullName m)).map Char.toLower) =
      some ⟨w.nextId, roleNameOf (extractFullName m)⟩ := by
    show (runBody cfg (noFaults r) w m).1.roles.find? _ = _
    rw [hw1r, List.find?_append, hfr]
    simp
  have h2c : ({ (runBody cfg (noFaults r) w m).1 with
      roster := loadExistingOCs r } : World).channels.find?
      (fun ch => ch.ctype == CType.guildText &&
        ch.name == channelNameOf (extractFullName m)) =
      some ⟨w.nextId + 1, channelNameOf (extractFullName m), CType.guildText,
        cfg.ocCategoryId, buildOverwrites cfg w.everyoneRoleId w.nextId⟩ := by
    show (runBody cfg (noFaults r) w m).1.channels.find? _ = _
    rw [hw1c, List.find?_append, hfc]
    simp
  have hfound := resolveRole_found cfg (noFaults r)
    { (runBody cfg (noFaults r) w m).1 with roster := loadExistingOCs r } m
    (extractFullName m) (roleNameOf (extractFullName m))
    (channelNameOf (extractFullName m))
    ⟨w.nextId, roleNameOf (extractFullName m)⟩
    ⟨w.nextId + 1, channelNameOf (extractFullName m), CType.guildText,
      cfg.ocCategoryId, buildOverwrites cfg w.everyoneRoleId w.nextId⟩ h2r h2c
  refine ⟨?_, ?_, ?_⟩
  · show (runBody cfg (noFaults r)
        (runBody cfg (noFaults r) w m).1 m).1.roles.countP _ = 1
    rw [hrun2, hfound.1]
    show (runBody cfg (noFaults r) w m).1.roles.countP _ = 1
    rw [hw1r, List.countP_append, List.countP_eq_zero.mpr hrole]
    simp [List.countP_cons]
  · show (runBody cfg (noFaults r)
        (runBody cfg (noFaults r) w m).1 m).1.channels.countP _ = 1
    rw [hrun2, hfound.2.1]
    show (runBody cfg (noFaults r) w m).1.channels.countP _ = 1
    rw [hw1c, List.countP_append, List.countP_eq_zero.mpr hchan]
    simp [List.countP_cons]
  · intro e he
    have he' : e ∈ (runBody cfg (noFaults r)
        (runBody cfg (noFaults r) w m).1 m).2.1 := he
    rw [hrun2] at he'
    exact hfound.2.2 e he'

/-- Claim C1 witness: a concrete double run on a fresh world ends with
exactly one matching role and one matching text channel. -/
theorem provision_idempotent_instance :
    ((handleMessage sampleCfg (noFaults FetchOut.netErr)
        (handleMessage sampleCfg (noFaults FetchOut.netErr) sampleWorld
          sampleMsg).1 sampleMsg).1.roles.countP
      (fun ro => ro.name.map Char.toLower ==
        (roleNameOf (extractFullName sampleMsg)).map Char.toLower) = 1) ∧
    ((handleMessage sampleCfg (noFaults FetchOut.netErr)
        (handleMessage sampleCfg (noFaults FetchOut.netErr) sampleWorld
          sampleMsg).1 sampleMsg).1.channels.countP
      (fun ch => ch.ctype == CType.guildText &&
        ch.name == channelNameOf (extractFullName sampleMsg)) = 1) :=
  ⟨(provision_idempotent sampleCfg FetchOut.netErr sampleWorld sampleMsg
      (by decide) rfl rfl (by decide) (by decide) (by decide) (by decide)
      (by decide)).1,
   (provision_idempotent sampleCfg FetchOut.netErr sampleWorld sampleMsg
      (by decide) rfl rfl (by decide) (by decide) (by decide) (by decide)
      (by decide)).2.1⟩

end OCBot
